import Mathlib

/-!
Verification development for the QuickChart MCP server
(`src/index.ts`, defensive build copy). The development shallowly embeds
the JavaScript values the server manipulates as the inductive `JValue`
(JSON values plus `undefined` and the one function value the code
creates, the gauge datalabel formatter), and translates the chart
normalization pipeline (`generateChartConfig`, `validateChartType`),
the URL builder (`generateChartUrl`), and the `download_chart` handler
(shape adapter, path resolution, effect ordering) into executable Lean
definitions. JavaScript platform primitives used by the code
(`JSON.stringify`, `JSON.parse`, `encodeURIComponent`,
`decodeURIComponent`) are modelled faithfully over `JValue`.
-/

namespace QuickChart

/-- The one function value created by the source: the gauge
`plugins.datalabels.formatter`, `(value) => value`. -/
inductive JFunc where
  | identityFormatter
deriving DecidableEq, Repr

/-- JavaScript values as the server sees them: JSON values plus
`undefined` and function values. Objects are ordered field lists
(JavaScript objects preserve insertion order); runtime objects never
hold duplicate keys, which the `pureJson`/`wfJson` predicates record. -/
inductive JValue where
  | undef
  | null
  | bool (b : Bool)
  | num (n : Int)
  | str (s : String)
  | arr (elems : List JValue)
  | obj (fields : List (String × JValue))
  | func (f : JFunc)
deriving Repr

/-- JS function application for the functions modelled in `JFunc`. -/
def applyFunc : JFunc → JValue → JValue
  | .identityFormatter, v => v

/-- JavaScript truthiness: `undefined`, `null`, `false`, `0`, and `""`
are falsy; every object, array and function is truthy. -/
def truthyV : JValue → Bool
  | .undef => false
  | .null => false
  | .bool b => b
  | .num n => n != 0
  | .str s => s != ""
  | .arr _ => true
  | .obj _ => true
  | .func _ => true

/-- Model of `Array.isArray`. -/
def isArrayV : JValue → Bool
  | .arr _ => true
  | _ => false

/-- Test for `typeof v` being the string `object` (true for objects,
arrays and `null`). -/
def isObjectTypeof : JValue → Bool
  | .obj _ => true
  | .arr _ => true
  | .null => true
  | _ => false

/-- Exactly `undefined` (the trigger of a destructuring default). -/
def isUndef : JValue → Bool
  | .undef => true
  | _ => false

/-- Nullish (`null` or `undefined`), the guard of optional chaining. -/
def nullish : JValue → Bool
  | .undef => true
  | .null => true
  | _ => false

/-- First-match association lookup in the field list of an object; `undef`
when the key is missing (JS property access yields `undefined`). -/
def lookupField : List (String × JValue) → String → JValue
  | [], _ => .undef
  | (k', v) :: rest, k => if k' = k then v else lookupField rest k

/-- JS property access `v.k`: field lookup on objects, `undefined` on
every other value reached by the guarded accesses in the source. -/
def JValue.get : JValue → String → JValue
  | .obj fs, k => lookupField fs k
  | _, _ => (.undef)

/-- JS index access `v[i]`: array element, string character, or the
string-keyed field of an object; `undefined` otherwise. -/
def JValue.getIndex : JValue → Nat → JValue
  | .arr xs, i => (xs.get? i).getD .undef
  | .obj fs, i => lookupField fs (toString i)
  | .str s, i => ((s.data.get? i).map fun c => JValue.str (String.mk [c])).getD .undef
  | _, _ => (.undef)

/-- Whether the field list of an object already holds a key. -/
def hasKey (fs : List (String × JValue)) (k : String) : Bool :=
  fs.any fun p => p.1 == k

/-- JS property write / object-literal key semantics: an existing key
keeps its position and takes the new value, a new key is appended.
(JS objects hold each key at most once, so replacing the first
occurrence is the engine behaviour.) -/
def insertField : List (String × JValue) → String → JValue → List (String × JValue)
  | [], k, v => [(k, v)]
  | (k', v') :: rest, k, v =>
    if k' = k then (k, v) :: rest else (k', v') :: insertField rest k v

/-- Build a JS object from a sequence of key/value insertions (object
literal with spreads): left to right, later occurrences of a key win
while the key keeps its first position. -/
def mkObj (pairs : List (String × JValue)) : List (String × JValue) :=
  pairs.foldl (fun acc p => insertField acc p.1 p.2) []

/-- Fields contributed by a spread `{...v}`: the own fields of an object,
the index-keyed entries of an array or string, nothing for primitives. -/
def spreadFields : JValue → List (String × JValue)
  | .obj fs => fs
  | .arr xs => xs.enum.map fun p => (toString p.1, p.2)
  | .str s => s.data.enum.map fun p => (toString p.1, JValue.str (String.mk [p.2]))
  | _ => []

/-- MCP error codes used by the source. -/
inductive ErrorCode where
  | InvalidParams
  | InternalError
  | MethodNotFound
deriving DecidableEq, Repr

/-- Structure of `McpError` as thrown by the source: a code and a
message. -/
structure McpError where
  code : ErrorCode
  message : String
deriving DecidableEq, Repr

/-- The fixed enumerated chart-type set (`validTypes` in
`validateChartType`). -/
def validTypes : List String :=
  ["bar", "line", "pie", "doughnut", "radar",
   "polarArea", "scatter", "bubble", "radialGauge", "speedometer"]

/-- The membership test of `validateChartType`:
`validTypes.includes(type)` uses strict equality, so a non-string
never matches. -/
def isValidChartTypeV : JValue → Bool
  | .str s => validTypes.contains s
  | _ => false

/-- Model of `validateChartType`: reject with an `InvalidParams` error
listing the valid set when the membership test fails. -/
def validateChartType (type : JValue) : Except McpError Unit :=
  if isValidChartTypeV type then .ok ()
  else .error ⟨.InvalidParams,
    "Invalid chart type. Must be one of: " ++ String.intercalate ", " validTypes⟩

/-- The body of `datasets.map(...)` in `generateChartConfig`: reject a
falsy dataset or falsy `data`, otherwise build the canonical dataset
object with defaulted label, passed-through data and colors, and the
spread of `additionalConfig || {}` merged last. -/
def builtDataset (dataset : JValue) : JValue :=
  .obj (mkObj (
    [("label", if truthyV (dataset.get "label") then dataset.get "label" else .str ""),
     ("data", dataset.get "data"),
     ("backgroundColor", dataset.get "backgroundColor"),
     ("borderColor", dataset.get "borderColor")]
    ++ spreadFields (if truthyV (dataset.get "additionalConfig")
        then dataset.get "additionalConfig" else .obj [])))

/-- The validity gate of the map body: a truthy dataset with truthy
`data`. -/
def datasetOk (dataset : JValue) : Bool :=
  truthyV dataset && truthyV (dataset.get "data")

/-- Gate plus construction, exactly the `datasets.map` body. -/
def buildDataset (dataset : JValue) : Except McpError JValue :=
  if !truthyV dataset || !truthyV (dataset.get "data") then
    .error ⟨.InvalidParams, "Each dataset must have a data property"⟩
  else
    .ok (builtDataset dataset)

/-- Left-to-right traversal of `datasets.map`: the first throwing
dataset aborts the whole construction. -/
def mapDatasets : List JValue → Except McpError (List JValue)
  | [] => .ok []
  | d :: rest => do
    let c ← buildDataset d
    let cs ← mapDatasets rest
    .ok (c :: cs)

/-- The canonical `options` object: `{...options, ...(title && {title:
{display: true, text: title}})}`. A falsy `title` spreads nothing. -/
def buildOptions (options title : JValue) : List (String × JValue) :=
  mkObj (spreadFields options ++
    (if truthyV title
     then [("title", JValue.obj [("display", .bool true), ("text", title)])]
     else []))

/-- The `plugins` block merged into `options` for gauge types:
`{datalabels: {display: true, formatter: (value) => value}}`. -/
def gaugePlugins : JValue :=
  .obj [("datalabels", .obj [("display", .bool true),
                             ("formatter", .func .identityFormatter)])]

/-- The optional chain `datasets?.[0]?.data?.[0]` from the gauge
branch. -/
def gaugeFirstValue (datasets : JValue) : JValue :=
  if nullish datasets then .undef
  else
    let d0 := datasets.getIndex 0
    if nullish d0 then .undef
    else
      let dd := d0.get "data"
      if nullish dd then .undef
      else dd.getIndex 0

/-- The `forEach` check of the scatter and bubble branch: the `data[0]` of every raw
dataset must be an array, else an error whose message
depends only on the chart type; the first offender throws. -/
def checkPoints (s : String) : List JValue → Except McpError Unit
  | [] => .ok ()
  | d :: rest =>
    if !isArrayV ((d.get "data").getIndex 0) then
      .error ⟨.InvalidParams,
        s ++ " requires data points in [x, y" ++
          (if s = "bubble" then ", r" else "") ++ "] format"⟩
    else checkPoints s rest

/-- Whether a chart-type string takes the gauge branch of the switch. -/
def isGaugeType (s : String) : Bool :=
  s == "radialGauge" || s == "speedometer"

/-- Whether a chart-type string takes the scatter/bubble branch. -/
def isPointType (s : String) : Bool :=
  s == "scatter" || s == "bubble"

/-- Model of `generateChartConfig` (src/index.ts:79-172): defensive gates in
source order (falsy args, falsy `type`, non-array `datasets`), then
`validateChartType`, then the canonical config assembly, then the
type-specific switch on the raw datasets. -/
def generateChartConfig (args : JValue) : Except McpError JValue :=
  if !truthyV args then
    .error ⟨.InvalidParams, "No arguments provided to generateChartConfig"⟩
  else if !truthyV (args.get "type") then
    .error ⟨.InvalidParams, "Chart type is required"⟩
  else
    match args.get "datasets" with
    | .arr ds =>
      let type := args.get "type"
      let labels := args.get "labels"
      let title := args.get "title"
      let options := if isUndef (args.get "options") then .obj [] else args.get "options"
      match validateChartType type with
      | .error e => .error e
      | .ok () =>
        match mapDatasets ds with
        | .error e => .error e
        | .ok mapped =>
          let baseOptions := buildOptions options title
          let dataObj : JValue :=
            .obj [("labels", if truthyV labels then labels else .arr []),
                  ("datasets", .arr mapped)]
          match type with
          | .str s =>
            if isGaugeType s then
              if !truthyV (gaugeFirstValue (.arr ds)) then
                .error ⟨.InvalidParams, s ++ " requires a single numeric value"⟩
              else
                .ok (.obj [("type", .str s), ("data", dataObj),
                  ("options", .obj (mkObj (baseOptions ++ [("plugins", gaugePlugins)])))])
            else if isPointType s then
              match checkPoints s ds with
              | .error e => .error e
              | .ok () =>
                .ok (.obj [("type", .str s), ("data", dataObj),
                  ("options", .obj baseOptions)])
            else
              .ok (.obj [("type", .str s), ("data", dataObj),
                ("options", .obj baseOptions)])
          | t =>
            -- unreachable: validateChartType only accepts strings
            .ok (.obj [("type", t), ("data", dataObj), ("options", .obj baseOptions)])
    | _ => .error ⟨.InvalidParams, "Datasets must be a non-empty array"⟩

/-- The `options` value after the destructuring default. -/
def optionsOf (args : JValue) : JValue :=
  if isUndef (args.get "options") then .obj [] else args.get "options"

/-- Closed form of the canonical configuration `generateChartConfig`
returns on success for chart type `s` and raw datasets `ds` (proved
equal to the output of the pipeline below). -/
def configOf (args : JValue) (s : String) (ds : List JValue) : JValue :=
  .obj [("type", .str s),
        ("data", .obj [
          ("labels", if truthyV (args.get "labels") then args.get "labels" else .arr []),
          ("datasets", .arr (ds.map builtDataset))]),
        ("options", .obj (
          if isGaugeType s
          then mkObj (buildOptions (optionsOf args) (args.get "title") ++
            [("plugins", gaugePlugins)])
          else buildOptions (optionsOf args) (args.get "title")))]

/-! ## Serialization: `JSON.stringify` and `encodeURIComponent` models -/

/-- Characters of the text `null`. -/
def nullChars : List Char := ['n', 'u', 'l', 'l']

/-- Lowercase hex digit (as emitted by JSON `\u00xx` escapes). -/
def hexL (n : Nat) : Char :=
  if n < 10 then Char.ofNat (48 + n) else Char.ofNat (87 + n)

/-- Uppercase hex digit (as emitted by `encodeURIComponent`). -/
def hexU (n : Nat) : Char :=
  if n < 10 then Char.ofNat (48 + n) else Char.ofNat (55 + n)

/-- Decimal digit character. -/
def digitChar (n : Nat) : Char := Char.ofNat (48 + n)

/-- Decimal digits of a natural number, most significant first
(fuel-based so that it reduces in the kernel). -/
def natCharsAux : Nat → Nat → List Char
  | 0, _ => []
  | fuel + 1, n =>
    if n < 10 then [digitChar n]
    else natCharsAux fuel (n / 10) ++ [digitChar (n % 10)]

/-- Decimal representation of a natural number. -/
def natChars (n : Nat) : List Char := natCharsAux (n + 1) n

/-- Decimal representation of an integer (JSON number text for the
integral numbers this embedding models JS numbers by). -/
def intChars (n : Int) : List Char :=
  if n < 0 then '-' :: natChars n.natAbs else natChars n.natAbs

/-- JSON string escaping of one character, as `JSON.stringify` emits
it: quote, backslash, the named control escapes, `\u00xx` for the
remaining control characters, and everything else verbatim. -/
def escapeChar (c : Char) : List Char :=
  if c = '"' then ['\\', '"']
  else if c = '\\' then ['\\', '\\']
  else if c = '\n' then ['\\', 'n']
  else if c = '\r' then ['\\', 'r']
  else if c = '\t' then ['\\', 't']
  else if c.toNat = 8 then ['\\', 'b']
  else if c.toNat = 12 then ['\\', 'f']
  else if c.toNat < 32 then
    ['\\', 'u', '0', '0', hexL (c.toNat / 16), hexL (c.toNat % 16)]
  else [c]

/-- JSON escaping of a character sequence. -/
def escapeChars : List Char → List Char
  | [] => []
  | c :: rest => escapeChar c ++ escapeChars rest

/-- A JSON string literal: quotes around the escaped body. -/
def quoteChars (s : List Char) : List Char :=
  '"' :: escapeChars s ++ ['"']

mutual
/-- Model of `JSON.stringify` (compact, no spacing), returning `none` for the
values `JSON.stringify` maps to `undefined` (`undefined` itself and
functions). -/
def jsonChars : JValue → Option (List Char)
  | .undef => none
  | .func _ => none
  | .null => some nullChars
  | .bool true => some ['t', 'r', 'u', 'e']
  | .bool false => some ['f', 'a', 'l', 's', 'e']
  | .num n => some (intChars n)
  | .str s => some (quoteChars s.data)
  | .arr xs => some ('[' :: jsonElems xs ++ [']'])
  | .obj fs => some ('{' :: jsonMembers fs ++ ['}'])

/-- Comma-separated array elements; an unserializable element is
printed as `null`, as `JSON.stringify` does inside arrays. -/
def jsonElems : List JValue → List Char
  | [] => []
  | [x] => (jsonChars x).getD nullChars
  | x :: y :: rest => (jsonChars x).getD nullChars ++ ',' :: jsonElems (y :: rest)

/-- Comma-separated object members; members whose value is
unserializable (`undefined` or a function) are omitted entirely. -/
def jsonMembers : List (String × JValue) → List Char
  | [] => []
  | (k, v) :: rest =>
    match jsonChars v with
    | none => jsonMembers rest
    | some sv =>
      let m := quoteChars k.data ++ ':' :: sv
      let r := jsonMembers rest
      m ++ (if r = [] then [] else ',' :: r)
end

/-- Model of `JSON.stringify` producing a `String`. -/
def jsonStringify (v : JValue) : Option String :=
  (jsonChars v).map String.mk

/-- The characters `encodeURIComponent` leaves unescaped:
alphanumerics and the punctuation set dash, underscore, dot, bang,
tilde, star, quote, parens. -/
def isUnreservedChar (c : Char) : Bool :=
  c.isAlpha || c.isDigit || c == '-' || c == '_' || c == '.' || c == '!' ||
    c == '~' || c == '*' || c == '\'' || c == '(' || c == ')'

/-- UTF-8 bytes of a Unicode scalar value. -/
def utf8Bytes (n : Nat) : List Nat :=
  if n < 0x80 then [n]
  else if n < 0x800 then [0xC0 + n / 64, 0x80 + n % 64]
  else if n < 0x10000 then
    [0xE0 + n / 4096, 0x80 + (n / 64) % 64, 0x80 + n % 64]
  else
    [0xF0 + n / 262144, 0x80 + (n / 4096) % 64, 0x80 + (n / 64) % 64, 0x80 + n % 64]

/-- A percent-escape `%XY` (uppercase hex, as `encodeURIComponent`
emits). -/
def pctEncodeByte (b : Nat) : List Char :=
  ['%', hexU (b / 16), hexU (b % 16)]

/-- Model of `encodeURIComponent` on one character. -/
def encodeChar (c : Char) : List Char :=
  if isUnreservedChar c then [c]
  else ((utf8Bytes c.toNat).map pctEncodeByte).flatten

/-- Model of `encodeURIComponent` on a character sequence. -/
def encodeChars : List Char → List Char
  | [] => []
  | c :: rest => encodeChar c ++ encodeChars rest

/-- Model of `encodeURIComponent` on a `String`. -/
def encodeURIComponentStr (s : String) : String :=
  String.mk (encodeChars s.data)

/-- The constant `QUICKCHART_BASE_URL`. -/
def QUICKCHART_BASE_URL : String := "https://quickchart.io/chart"

/-- Model of `generateChartUrl` (src/index.ts:174-177):
`${QUICKCHART_BASE_URL}?c=${encodeURIComponent(JSON.stringify(config))}`.
(The normalizer only ever hands it objects, for which `JSON.stringify`
returns a string; the `getD` default mirrors the `"undefined"` text JS
coercion would produce otherwise.) -/
def generateChartUrl (config : JValue) : String :=
  QUICKCHART_BASE_URL ++ "?c=" ++
    encodeURIComponentStr ((jsonStringify config).getD "undefined")

/-! ## `decodeURIComponent` and `JSON.parse` models

Modelled from the spec: the URL round-trip law of the spec speaks of
"percent-decoding plus JSON-parsing the remainder"; the platform
functions `decodeURIComponent` and `JSON.parse` are not part of the
repository, so they are modelled here. `decodeURIComponent` percent-
decodes UTF-8 byte sequences; `JSON.parse` is a recursive-descent JSON
reader (restricted to the integral numerals this embedding uses for JS
numbers, and keeping the last value of a duplicate object key, as JS does). -/

/-- Value of a hex digit (both cases accepted, as `decodeURIComponent`
does). -/
def hexVal (c : Char) : Option Nat :=
  if '0' ≤ c ∧ c ≤ '9' then some (c.toNat - 48)
  else if 'A' ≤ c ∧ c ≤ 'F' then some (c.toNat - 55)
  else if 'a' ≤ c ∧ c ≤ 'f' then some (c.toNat - 87)
  else none

/-- Byte denoted by two hex digits. -/
def pctByteVal (h1 h2 : Char) : Option Nat := do
  let a ← hexVal h1
  let b ← hexVal h2
  some (a * 16 + b)

/-- Whether a byte is a UTF-8 continuation byte. -/
def isContByte (b : Nat) : Bool := 0x80 ≤ b && b < 0xC0

/-- Reader for one percent-escape `%XY`: the byte value and the rest. -/
def readPct : List Char → Option (Nat × List Char)
  | c :: h1 :: h2 :: rest =>
    if c = '%' then (pctByteVal h1 h2).map fun b => (b, rest) else none
  | _ => none

/-- Model of `decodeURIComponent` (fuel-indexed worker): percent-escapes
are decoded as UTF-8 byte sequences, other characters pass through;
malformed input fails (the JS function throws `URIError`). One unit of
fuel covers one decoded character, so the input length is enough. -/
def decodeAux : Nat → List Char → Option (List Char)
  | _, [] => some []
  | 0, _ :: _ => none
  | fuel + 1, c :: rest =>
    if c = '%' then
      match readPct (c :: rest) with
      | none => none
      | some (b, rest1) =>
        if b < 0x80 then (decodeAux fuel rest1).map (Char.ofNat b :: ·)
        else if b < 0xC0 then none
        else if b < 0xE0 then
          match readPct rest1 with
          | some (b2, rest2) =>
            if isContByte b2 then
              (decodeAux fuel rest2).map
                (Char.ofNat ((b - 0xC0) * 64 + (b2 - 0x80)) :: ·)
            else none
          | none => none
        else if b < 0xF0 then
          match readPct rest1 with
          | some (b2, rest2) =>
            match readPct rest2 with
            | some (b3, rest3) =>
              if isContByte b2 && isContByte b3 then
                (decodeAux fuel rest3).map
                  (Char.ofNat ((b - 0xE0) * 4096 + (b2 - 0x80) * 64 + (b3 - 0x80)) :: ·)
              else none
            | none => none
          | none => none
        else if b < 0xF8 then
          match readPct rest1 with
          | some (b2, rest2) =>
            match readPct rest2 with
            | some (b3, rest3) =>
              match readPct rest3 with
              | some (b4, rest4) =>
                if isContByte b2 && isContByte b3 && isContByte b4 then
                  (decodeAux fuel rest4).map
                    (Char.ofNat ((b - 0xF0) * 262144 + (b2 - 0x80) * 4096 +
                      (b3 - 0x80) * 64 + (b4 - 0x80)) :: ·)
                else none
              | none => none
            | none => none
          | none => none
        else none
    else (decodeAux fuel rest).map (c :: ·)

/-- Model of `decodeURIComponent` on a character sequence. -/
def decodeChars (cs : List Char) : Option (List Char) :=
  decodeAux cs.length cs

/-- Model of `decodeURIComponent` on a `String`. -/
def decodeURIComponentStr (s : String) : Option String :=
  (decodeChars s.data).map String.mk

/-- JSON insignificant whitespace. -/
def isWsChar (c : Char) : Bool :=
  c = ' ' || c = '\t' || c = '\n' || c = '\r'

/-- Skip insignificant whitespace. -/
def skipWs : List Char → List Char
  | [] => []
  | c :: rest => if isWsChar c then skipWs rest else c :: rest

/-- Decimal digit test. -/
def isDig (c : Char) : Bool := '0' ≤ c && c ≤ '9'

/-- Value of a decimal digit character. -/
def digVal (c : Char) : Nat := c.toNat - 48

/-- Consume a maximal run of decimal digits, accumulating their
value. -/
def parseDigits : List Char → Nat → Nat × List Char
  | [], acc => (acc, [])
  | c :: cs, acc =>
    if isDig c then parseDigits cs (acc * 10 + digVal c) else (acc, c :: cs)

/-- Parse a JSON integer numeral (optional minus sign, digit run). -/
def parseIntChars : List Char → Option (Int × List Char)
  | [] => none
  | c :: rest =>
    if c = '-' then
      match rest with
      | c2 :: _ =>
        if isDig c2 then
          some (-(((parseDigits rest 0).1 : Nat) : Int), (parseDigits rest 0).2)
        else none
      | [] => none
    else if isDig c then
      some (((parseDigits (c :: rest) 0).1 : Int), (parseDigits (c :: rest) 0).2)
    else none

/-- The named single-character string escapes of JSON. -/
def unescapeChar (e : Char) : Option Char :=
  if e = '"' then some '"'
  else if e = '\\' then some '\\'
  else if e = '/' then some '/'
  else if e = 'n' then some '\n'
  else if e = 'r' then some '\r'
  else if e = 't' then some '\t'
  else if e = 'b' then some (Char.ofNat 8)
  else if e = 'f' then some (Char.ofNat 12)
  else none

/-- Reader for the four hex digits of a `\\uXXXX` escape. -/
def parseUEscape : List Char → Option (Nat × List Char)
  | h1 :: h2 :: h3 :: h4 :: rest => do
    let a ← hexVal h1
    let b ← hexVal h2
    let c2 ← hexVal h3
    let d ← hexVal h4
    some (a * 4096 + b * 256 + c2 * 16 + d, rest)
  | _ => none

/-- Reader for one escape sequence after a backslash: the decoded
character and the rest. -/
def readEscape : List Char → Option (Char × List Char)
  | [] => none
  | e :: rest1 =>
    if e = 'u' then
      match parseUEscape rest1 with
      | some (code, rest2) => some (Char.ofNat code, rest2)
      | none => none
    else
      match unescapeChar e with
      | some ec => some (ec, rest1)
      | none => none

/-- Fuel-indexed worker for the JSON string-body parser: decode
characters until the closing quote, handling the named escapes and
`\\uXXXX`. One unit of fuel per decoded character. -/
def parseStringAux : Nat → List Char → Option (List Char × List Char)
  | _, [] => none
  | 0, _ :: _ => none
  | fuel + 1, c :: rest =>
    if c = '"' then some ([], rest)
    else if c = '\\' then
      match readEscape rest with
      | some (ec, rest2) =>
        (parseStringAux fuel rest2).map fun p => (ec :: p.1, p.2)
      | none => none
    else
      (parseStringAux fuel rest).map fun p => (c :: p.1, p.2)

/-- Parse the body of a JSON string literal after the opening quote,
returning the decoded characters and the rest after the closing
quote. -/
def parseStringChars (cs : List Char) : Option (List Char × List Char) :=
  parseStringAux cs.length cs

/-- Match an expected literal character sequence, returning the rest. -/
def expectLit : List Char → List Char → Option (List Char)
  | [], cs => some cs
  | _ :: _, [] => none
  | l :: ls, c :: cs => if c = l then expectLit ls cs else none

mutual
/-- Fuel-indexed recursive-descent JSON value parser. -/
def parseVal : Nat → List Char → Option (JValue × List Char)
  | 0, _ => none
  | fuel + 1, cs =>
    match skipWs cs with
    | [] => none
    | c :: rest =>
      if c = '"' then
        (parseStringChars rest).map fun p => (.str (String.mk p.1), p.2)
      else if c = '[' then
        match skipWs rest with
        | c2 :: rest2 =>
          if c2 = ']' then some (.arr [], rest2)
          else (parseElems fuel (c2 :: rest2)).map fun p => (.arr p.1, p.2)
        | [] => none
      else if c = '{' then
        match skipWs rest with
        | c2 :: rest2 =>
          if c2 = '}' then some (.obj [], rest2)
          else (parseMembers fuel (c2 :: rest2)).map fun p => (.obj (mkObj p.1), p.2)
        | [] => none
      else if c = 't' then
        match expectLit ['r', 'u', 'e'] rest with
        | some r => some (.bool true, r)
        | none => none
      else if c = 'f' then
        match expectLit ['a', 'l', 's', 'e'] rest with
        | some r => some (.bool false, r)
        | none => none
      else if c = 'n' then
        match expectLit ['u', 'l', 'l'] rest with
        | some r => some (.null, r)
        | none => none
      else
        (parseIntChars (c :: rest)).map fun p => (.num p.1, p.2)

/-- Parse the elements of a non-empty JSON array after `[`. -/
def parseElems : Nat → List Char → Option (List JValue × List Char)
  | 0, _ => none
  | fuel + 1, cs =>
    match parseVal fuel cs with
    | none => none
    | some (v, r) =>
      match skipWs r with
      | c :: r2 =>
        if c = ',' then
          match parseElems fuel r2 with
          | some (vs, r3) => some (v :: vs, r3)
          | none => none
        else if c = ']' then some ([v], r2)
        else none
      | [] => none

/-- Parse the members of a non-empty JSON object after `{`. -/
def parseMembers : Nat → List Char → Option (List (String × JValue) × List Char)
  | 0, _ => none
  | fuel + 1, cs =>
    match skipWs cs with
    | c :: rest =>
      if c = '"' then
        match parseStringChars rest with
        | some (k, r) =>
          match skipWs r with
          | c2 :: r2 =>
            if c2 = ':' then
              match parseVal fuel r2 with
              | some (v, r3) =>
                match skipWs r3 with
                | c3 :: r4 =>
                  if c3 = ',' then
                    match parseMembers fuel r4 with
                    | some (fs, r5) => some ((String.mk k, v) :: fs, r5)
                    | none => none
                  else if c3 = '}' then some ([(String.mk k, v)], r4)
                  else none
                | [] => none
              | none => none
            else none
          | [] => none
        | none => none
      else none
    | [] => none
end

/-- Model of `JSON.parse`: the whole input (up to trailing whitespace) must be
one JSON value. -/
def jsonParse (s : String) : Option JValue := do
  let (v, r) ← parseVal (s.data.length + 1) s.data
  if skipWs r = [] then some v else none

/-! ## Structural predicates on `JValue` -/

/-- Values `JSON.stringify` serializes (everything except `undefined`
and functions). -/
def serializableV : JValue → Bool
  | .undef => false
  | .func _ => false
  | _ => true

mutual
/-- The value `JSON.parse ∘ JSON.stringify` reproduces: object members
with unserializable values are dropped, unserializable array elements
become `null`. -/
def strip : JValue → JValue
  | .undef => .null
  | .func _ => .null
  | .null => .null
  | .bool b => .bool b
  | .num n => .num n
  | .str s => .str s
  | .arr xs => .arr (stripList xs)
  | .obj fs => .obj (stripFields fs)

/-- Action of `strip` on array elements. -/
def stripList : List JValue → List JValue
  | [] => []
  | x :: rest => strip x :: stripList rest

/-- Action of `strip` on object members: unserializable values drop
the member. -/
def stripFields : List (String × JValue) → List (String × JValue)
  | [] => []
  | (k, v) :: rest =>
    if serializableV v then (k, strip v) :: stripFields rest
    else stripFields rest
end

/-- No duplicate keys in a field list (JS runtime objects always
satisfy this). -/
def nodupKeys : List (String × JValue) → Bool
  | [] => true
  | (k, _) :: rest => !(rest.any fun p => p.1 == k) && nodupKeys rest

mutual
/-- Well-formed JS runtime value: every object has duplicate-free
keys. (`undefined` and functions are allowed.) -/
def wfJson : JValue → Bool
  | .arr xs => wfList xs
  | .obj fs => nodupKeys fs && wfFields fs
  | .undef => true
  | .null => true
  | .bool _ => true
  | .num _ => true
  | .str _ => true
  | .func _ => true

/-- Conjunction of `wfJson` over array elements. -/
def wfList : List JValue → Bool
  | [] => true
  | x :: rest => wfJson x && wfList rest

/-- Conjunction of `wfJson` over object member values. -/
def wfFields : List (String × JValue) → Bool
  | [] => true
  | (_, v) :: rest => wfJson v && wfFields rest
end

mutual
/-- Pure JSON value, as delivered by the JSON-RPC transport: no
`undefined`, no functions, duplicate-free object keys. -/
def pureJson : JValue → Bool
  | .undef => false
  | .func _ => false
  | .arr xs => pureList xs
  | .obj fs => nodupKeys fs && pureFields fs
  | .null => true
  | .bool _ => true
  | .num _ => true
  | .str _ => true

/-- Conjunction of `pureJson` over array elements. -/
def pureList : List JValue → Bool
  | [] => true
  | x :: rest => pureJson x && pureList rest

/-- Conjunction of `pureJson` over object member values. -/
def pureFields : List (String × JValue) → Bool
  | [] => true
  | (_, v) :: rest => pureJson v && pureFields rest
end

mutual
/-- Parser fuel sufficient for the serialized form of a value. -/
def needFuel : JValue → Nat
  | .arr xs => 1 + needElems xs
  | .obj fs => 1 + needMembers fs
  | .undef => 1
  | .null => 1
  | .bool _ => 1
  | .num _ => 1
  | .str _ => 1
  | .func _ => 1

/-- Fuel for printed array elements. -/
def needElems : List JValue → Nat
  | [] => 0
  | x :: rest => 1 + max (needFuel x) (needElems rest)

/-- Fuel for printed object members (omitted members cost nothing). -/
def needMembers : List (String × JValue) → Nat
  | [] => 0
  | (_, v) :: rest =>
    if serializableV v then 1 + max (needFuel v) (needMembers rest)
    else needMembers rest
end

/-- Whether a character sequence starts with a decimal digit. -/
def headIsDig : List Char → Bool
  | [] => false
  | c :: _ => isDig c

/-- A minimal pure bar-chart argument object, used to witness the URL
round-trip law. -/
def c3args : JValue :=
  .obj [("type", .str "bar"),
        ("datasets", .arr [.obj [("data", .arr [.num 1])]])]

/-- The canonical configuration produced for `c3args`. -/
def c3cfg : JValue := configOf c3args "bar" [.obj [("data", .arr [.num 1])]]

/-- A pure radialGauge argument object whose canonical configuration
holds the datalabel formatter function. -/
def c3gaugeArgs : JValue :=
  .obj [("type", .str "radialGauge"),
        ("datasets", .arr [.obj [("data", .arr [.num 50])]])]

/-- The canonical configuration produced for `c3gaugeArgs`. -/
def c3gaugeCfg : JValue :=
  configOf c3gaugeArgs "radialGauge" [.obj [("data", .arr [.num 50])]]

/-! ## The `download_chart` handler -/

/-- One lifting step of the nested-shape adapter: if `orig.data` is a
truthy object-typed value whose `k` member is truthy and the current
top-level `k` is falsy, assign `cur.k = orig.data.k`. -/
def liftNested (orig : JValue) (cur : List (String × JValue)) (k : String) :
    List (String × JValue) :=
  let d := orig.get "data"
  if truthyV d && isObjectTypeof d && truthyV (d.get k) && !truthyV (lookupField cur k)
  then insertField cur k (d.get k)
  else cur

/-- The shape adapter of `download_chart` (src/index.ts:288-307):
start from `{...config}` and lift `datasets`, `labels`, `type` in that
order from the nested `data` member. -/
def adaptConfig (config : JValue) : List (String × JValue) :=
  let n0 := mkObj (spreadFields config)
  let n1 := liftNested config n0 "datasets"
  let n2 := liftNested config n1 "labels"
  liftNested config n2 "type"

/-- A JS exception as seen by the catch blocks of the download handler: an
optional `code` (`EACCES`, `EROFS`, `ENOENT`, ...) and a message. -/
structure JsError where
  code : Option String
  message : String
deriving DecidableEq, Repr

/-- Environment of platform primitives the handler calls: path
library, filesystem probes, the HTTP fetch and the file write.
`timestamp` is the already-formatted timestamp text; `pathTypeError`
is the message of the `TypeError` `path.dirname` throws on a
non-string argument. -/
structure DlEnv where
  homeDir : String
  timestamp : String
  joinPath : String → String → String
  dirname : String → String
  desktopWritable : Bool
  writable : String → Bool
  fetch : String → Except JsError (List Nat)
  writeFile : String → List Nat → Except JsError Unit
  pathTypeError : String

/-- Externally visible I/O actions of one `download_chart` run, in
order. -/
inductive Effect where
  | access (dir : String)
  | fetchUrl (url : String)
  | writeFile (path : String)
deriving DecidableEq, Repr

/-- JS string coercion, for the `${chartType}` filename interpolation.
(On the reachable path the value is the validated chart type; the
array case abbreviates the element join of `Array.prototype.toString`,
which no property in this development depends on.) -/
def jsToString : JValue → String
  | .str s => s
  | .num n => String.mk (intChars n)
  | .bool true => "true"
  | .bool false => "false"
  | .null => "null"
  | .undef => "undefined"
  | .arr _ => ""
  | .obj _ => "[object Object]"
  | .func _ => "function"

/-- The error classification of the inner catch around the fetch and the
file write (src/index.ts:367-380): `EACCES`/`EROFS` and `ENOENT`
become `InvalidParams` errors naming the output path; anything else is
rethrown and wrapped by the outer catch as `InternalError`. -/
def classifyIoError (outputPath : String) (e : JsError) : McpError :=
  if e.code = some "EACCES" ∨ e.code = some "EROFS" then
    ⟨.InvalidParams, "Cannot write to " ++ outputPath ++ ": Permission denied"⟩
  else if e.code = some "ENOENT" then
    ⟨.InvalidParams, "Cannot write to " ++ outputPath ++ ": Directory does not exist"⟩
  else ⟨.InternalError, "Failed to download chart: " ++ e.message⟩

/-- Output path resolution of `download_chart` (src/index.ts:317-347):
a truthy supplied path is used as is when it is a string (a truthy
non-string makes `path.dirname` throw a `TypeError`, wrapped by the
outer catch as an internal error); otherwise a default path is derived
under the Desktop directory when the Desktop write probe succeeds,
else under the home directory. -/
def resolveOutput (env : DlEnv) (normalized userPath : JValue) :
    Except McpError (String × List Effect) :=
  if truthyV userPath then
    match userPath with
    | .str s => .ok (s, [])
    | _ => .error ⟨.InternalError, "Failed to download chart: " ++ env.pathTypeError⟩
  else
    let desktopDir := env.joinPath env.homeDir "Desktop"
    let baseDir := if env.desktopWritable then desktopDir else env.homeDir
    let chartType := if truthyV (normalized.get "type")
      then normalized.get "type" else .str "chart"
    let fileName := jsToString chartType ++ "_" ++ env.timestamp ++ ".png"
    .ok (env.joinPath baseDir fileName, [.access desktopDir])

/-- The `download_chart` handler (src/index.ts:273-400), returning its
result together with the ordered trace of I/O effects: config shape
check, nested-shape adaptation, type/datasets revalidation, output
path resolution (with the Desktop write probe when no path is given),
the output directory write probe, normalization, URL build, fetch, and
file write. -/
def downloadChart (env : DlEnv) (args : JValue) :
    Except McpError String × List Effect :=
  let config := args.get "config"
  let userPath := args.get "outputPath"
  if !truthyV config || !isObjectTypeof config then
    (.error ⟨.InvalidParams, "Config must be a valid chart configuration object"⟩, [])
  else
    let normalized : JValue := .obj (adaptConfig config)
    if !truthyV (normalized.get "type") || !truthyV (normalized.get "datasets") then
      (.error ⟨.InvalidParams,
        "Config must include type and datasets properties (either at root level or inside data object)"⟩,
       [])
    else
      match resolveOutput env normalized userPath with
      | .error e => (.error e, [])
      | .ok (outputPath, effs0) =>
        let outputDir := env.dirname outputPath
        let effs1 := effs0 ++ [.access outputDir]
        if !env.writable outputDir then
          (.error ⟨.InvalidParams,
            "Output directory does not exist or is not writable: " ++ outputDir⟩, effs1)
        else
          match generateChartConfig normalized with
          | .error e => (.error e, effs1)
          | .ok chartConfig =>
            let url := generateChartUrl chartConfig
            let effs2 := effs1 ++ [.fetchUrl url]
            match env.fetch url with
            | .error err => (.error (classifyIoError outputPath err), effs2)
            | .ok bytes =>
              let effs3 := effs2 ++ [.writeFile outputPath]
              match env.writeFile outputPath bytes with
              | .error err => (.error (classifyIoError outputPath err), effs3)
              | .ok () => (.ok ("Chart saved to " ++ outputPath), effs3)

/-- No fetch effect in a trace. -/
def noFetch (tr : List Effect) : Bool :=
  tr.all fun e => match e with
    | .fetchUrl _ => false
    | _ => true

/-- No file-write effect in a trace. -/
def noWrite (tr : List Effect) : Bool :=
  tr.all fun e => match e with
    | .writeFile _ => false
    | _ => true

/-! ## Association-list lemmas -/

theorem hasKey_cons (k' : String) (v : JValue) (fs : List (String × JValue)) (k : String) :
    hasKey ((k', v) :: fs) k = ((k' == k) || hasKey fs k) := by
  simp [hasKey]

theorem hasKey_append (l1 l2 : List (String × JValue)) (k : String) :
    hasKey (l1 ++ l2) k = (hasKey l1 k || hasKey l2 k) := by
  simp [hasKey, List.any_append]

theorem lookupField_eq_undef_of_not_hasKey :
    ∀ (fs : List (String × JValue)) (k : String),
      hasKey fs k = false → lookupField fs k = .undef := by
  intro fs k h
  induction fs with
  | nil => rfl
  | cons p rest ih =>
    obtain ⟨k', v⟩ := p
    rw [hasKey_cons] at h
    have h1 : (k' == k) = false := by
      cases hkk : (k' == k) <;> simp [hkk] at h ⊢
    have h2 : hasKey rest k = false := by
      cases hr : hasKey rest k <;> simp [hr, h1] at h ⊢
    have hne : ¬ (k' = k) := by simpa using h1
    simp only [lookupField, if_neg hne]
    exact ih h2

theorem lookupField_append_left (l1 l2 : List (String × JValue)) (k : String)
    (h : hasKey l1 k = true) :
    lookupField (l1 ++ l2) k = lookupField l1 k := by
  induction l1 with
  | nil => simp [hasKey] at h
  | cons p rest ih =>
    obtain ⟨k', v⟩ := p
    by_cases hk : k' = k
    · simp [lookupField, hk]
    · rw [hasKey_cons] at h
      have h1 : (k' == k) = false := by simpa using hk
      rw [h1] at h
      simp only [List.cons_append, lookupField, if_neg hk]
      exact ih (by simpa using h)

theorem lookupField_append_right (l1 l2 : List (String × JValue)) (k : String)
    (h : hasKey l1 k = false) :
    lookupField (l1 ++ l2) k = lookupField l2 k := by
  induction l1 with
  | nil => rfl
  | cons p rest ih =>
    obtain ⟨k', v⟩ := p
    rw [hasKey_cons] at h
    have h1 : (k' == k) = false := by
      cases hkk : (k' == k) <;> simp [hkk] at h ⊢
    have h2 : hasKey rest k = false := by
      cases hr : hasKey rest k <;> simp [hr, h1] at h ⊢
    have hne : ¬ (k' = k) := by simpa using h1
    simp only [List.cons_append, lookupField, if_neg hne]
    exact ih h2

theorem lookupField_insert_self (fs : List (String × JValue)) (k : String) (v : JValue) :
    lookupField (insertField fs k v) k = v := by
  induction fs with
  | nil => simp [insertField, lookupField]
  | cons p rest ih =>
    obtain ⟨k', v'⟩ := p
    by_cases hk : k' = k
    · simp [insertField, hk, lookupField]
    · simp only [insertField, if_neg hk, lookupField, if_neg hk]
      exact ih

theorem lookupField_insert_ne (fs : List (String × JValue)) (k k' : String) (v : JValue)
    (h : k' ≠ k) :
    lookupField (insertField fs k v) k' = lookupField fs k' := by
  induction fs with
  | nil =>
    simp only [insertField, lookupField]
    rw [if_neg (by intro hh; exact h hh.symm)]
  | cons p rest ih =>
    obtain ⟨k0, v0⟩ := p
    by_cases h0 : k0 = k
    · subst h0
      simp only [insertField, if_pos rfl, lookupField]
      rw [if_neg (by intro hh; exact h hh.symm),
        if_neg (by intro hh; exact h hh.symm)]
    · simp only [insertField, if_neg h0, lookupField]
      by_cases h1 : k0 = k'
      · rw [if_pos h1, if_pos h1]
      · rw [if_neg h1, if_neg h1]
        exact ih

theorem hasKey_insert (fs : List (String × JValue)) (k k' : String) (v : JValue) :
    hasKey (insertField fs k v) k' = (hasKey fs k' || (k == k')) := by
  induction fs with
  | nil => simp [insertField, hasKey]
  | cons p rest ih =>
    obtain ⟨k0, v0⟩ := p
    by_cases h0 : k0 = k
    · subst h0
      simp only [insertField, if_pos rfl, hasKey_cons]
      cases hk : (k0 == k') <;> cases hr : hasKey rest k' <;>
        simp [hasKey_cons, hk, hr]
    · simp only [insertField, if_neg h0, hasKey_cons, ih]
      cases hk : (k0 == k') <;> simp [hk, Bool.or_assoc]

theorem nodupKeys_insert (fs : List (String × JValue)) (k : String) (v : JValue)
    (h : nodupKeys fs = true) : nodupKeys (insertField fs k v) = true := by
  induction fs with
  | nil => simp [insertField, nodupKeys, hasKey]
  | cons p rest ih =>
    obtain ⟨k0, v0⟩ := p
    simp only [nodupKeys, Bool.and_eq_true, Bool.not_eq_true'] at h
    obtain ⟨hna, hnd⟩ := h
    by_cases h0 : k0 = k
    · subst h0
      simp only [insertField, if_pos rfl, nodupKeys, Bool.and_eq_true,
        Bool.not_eq_true']
      exact ⟨hna, hnd⟩
    · simp only [insertField, if_neg h0, nodupKeys, Bool.and_eq_true,
        Bool.not_eq_true']
      constructor
      · rw [show ((insertField rest k v).any fun p => p.1 == k0) =
            hasKey (insertField rest k v) k0 from rfl]
        rw [hasKey_insert]
        have hb : (k == k0) = false := by
          simpa using fun hh : k = k0 => h0 hh.symm
        have hna2 : hasKey rest k0 = false := hna
        simp [hb, hna2]
      · exact ih hnd

theorem mem_insertField (fs : List (String × JValue)) (k : String) (v : JValue)
    (q : String × JValue) (hq : q ∈ insertField fs k v) : q ∈ fs ∨ q = (k, v) := by
  induction fs with
  | nil =>
    simp only [insertField] at hq
    right
    simpa using hq
  | cons p rest ih =>
    obtain ⟨k0, v0⟩ := p
    by_cases h0 : k0 = k
    · subst h0
      simp only [insertField, if_pos rfl] at hq
      rcases List.mem_cons.mp hq with h | h
      · exact Or.inr h
      · exact Or.inl (List.mem_cons_of_mem _ h)
    · simp only [insertField, if_neg h0] at hq
      rcases List.mem_cons.mp hq with h | h
      · exact Or.inl (h ▸ List.mem_cons_self _ _)
      · rcases ih h with h | h
        · exact Or.inl (List.mem_cons_of_mem _ h)
        · exact Or.inr h

theorem insertField_of_not_hasKey (fs : List (String × JValue)) (k : String) (v : JValue)
    (h : hasKey fs k = false) : insertField fs k v = fs ++ [(k, v)] := by
  induction fs with
  | nil => rfl
  | cons p rest ih =>
    obtain ⟨k0, v0⟩ := p
    rw [hasKey_cons] at h
    have h1 : (k0 == k) = false := by
      cases hkk : (k0 == k) <;> simp [hkk] at h ⊢
    have h2 : hasKey rest k = false := by
      cases hr : hasKey rest k <;> simp [hr, h1] at h ⊢
    have hne : ¬ (k0 = k) := by simpa using h1
    simp only [insertField, if_neg hne, List.cons_append]
    rw [ih h2]

theorem nodupKeys_mkObjAux (l : List (String × JValue)) :
    ∀ acc, nodupKeys acc = true →
      nodupKeys (l.foldl (fun acc p => insertField acc p.1 p.2) acc) = true := by
  induction l with
  | nil => intro acc h; simpa using h
  | cons p rest ih =>
    intro acc h
    exact ih _ (nodupKeys_insert acc p.1 p.2 h)

theorem nodupKeys_mkObj (l : List (String × JValue)) : nodupKeys (mkObj l) = true :=
  nodupKeys_mkObjAux l [] rfl

theorem lookupField_foldl_not_hasKey (l : List (String × JValue)) (k : String)
    (h : hasKey l k = false) :
    ∀ acc, lookupField (l.foldl (fun acc p => insertField acc p.1 p.2) acc) k =
      lookupField acc k := by
  induction l with
  | nil => intro acc; rfl
  | cons p rest ih =>
    intro acc
    obtain ⟨k0, v0⟩ := p
    rw [hasKey_cons] at h
    have h1 : (k0 == k) = false := by
      cases hkk : (k0 == k) <;> simp [hkk] at h ⊢
    have h2 : hasKey rest k = false := by
      cases hr : hasKey rest k <;> simp [hr, h1] at h ⊢
    have hne : k ≠ k0 := by
      intro hh
      subst hh
      simp at h1
    simp only [List.foldl_cons]
    rw [ih h2, lookupField_insert_ne acc k0 k v0 hne]

theorem lookupField_foldl_mem_nodup (l : List (String × JValue)) (k : String) (v : JValue)
    (hnd : nodupKeys l = true) (hmem : (k, v) ∈ l) :
    ∀ acc, lookupField (l.foldl (fun acc p => insertField acc p.1 p.2) acc) k = v := by
  induction l with
  | nil => cases hmem
  | cons p rest ih =>
    intro acc
    obtain ⟨k0, v0⟩ := p
    simp only [nodupKeys, Bool.and_eq_true, Bool.not_eq_true'] at hnd
    obtain ⟨hna, hnd2⟩ := hnd
    simp only [List.foldl_cons]
    rcases List.mem_cons.mp hmem with heq | hmem2
    · injection heq with hk hv
      subst hk
      subst hv
      rw [lookupField_foldl_not_hasKey rest k hna]
      exact lookupField_insert_self acc k v
    · exact ih hnd2 hmem2 _

theorem lookupField_mkObj_append_last (l : List (String × JValue)) (k : String) (v : JValue) :
    lookupField (mkObj (l ++ [(k, v)])) k = v := by
  unfold mkObj
  rw [List.foldl_append]
  simp only [List.foldl_cons, List.foldl_nil]
  exact lookupField_insert_self _ k v

theorem mem_foldl_insert (l : List (String × JValue)) (q : String × JValue) :
    ∀ acc, q ∈ l.foldl (fun acc p => insertField acc p.1 p.2) acc →
      q ∈ acc ∨ q ∈ l := by
  induction l with
  | nil => intro acc h; exact Or.inl h
  | cons p rest ih =>
    intro acc h
    rcases ih _ h with h2 | h2
    · rcases mem_insertField acc p.1 p.2 q h2 with h3 | h3
      · exact Or.inl h3
      · right
        rw [h3]
        exact List.mem_cons_self _ _
    · exact Or.inr (List.mem_cons_of_mem _ h2)

theorem mem_mkObj (l : List (String × JValue)) (q : String × JValue)
    (h : q ∈ mkObj l) : q ∈ l := by
  rcases mem_foldl_insert l q [] h with h2 | h2
  · cases h2
  · exact h2

/-- A `foldl` of inserts over pairwise-fresh keys is plain append. -/
theorem foldl_insert_eq_append (l : List (String × JValue)) :
    ∀ acc, nodupKeys (acc ++ l) = true →
      l.foldl (fun acc p => insertField acc p.1 p.2) acc = acc ++ l := by
  induction l with
  | nil => intro acc _; simp
  | cons p rest ih =>
    intro acc h
    obtain ⟨k, v⟩ := p
    have hfresh : hasKey acc k = false := by
      by_contra hc
      have hc2 : hasKey acc k = true := by
        cases hh : hasKey acc k
        · exact absurd hh hc
        · rfl
      clear hc ih
      induction acc with
      | nil => simp [hasKey] at hc2
      | cons q acc2 ih2 =>
        obtain ⟨kq, vq⟩ := q
        rw [hasKey_cons] at hc2
        simp only [List.cons_append, nodupKeys, Bool.and_eq_true,
          Bool.not_eq_true'] at h
        obtain ⟨hna, hnd⟩ := h
        by_cases hq : kq = k
        · subst hq
          have hna2 : hasKey (acc2 ++ (kq, v) :: rest) kq = false := hna
          rw [hasKey_append] at hna2
          simp [hasKey_cons] at hna2
        · have h1 : (kq == k) = false := by simpa using hq
          rw [h1] at hc2
          exact ih2 hnd (by simpa using hc2)
    rw [List.foldl_cons, insertField_of_not_hasKey acc k v hfresh,
      ih (acc ++ [(k, v)]) (by simpa using h)]
    simp

theorem mkObj_eq_self (l : List (String × JValue)) (h : nodupKeys l = true) :
    mkObj l = l := by
  unfold mkObj
  rw [foldl_insert_eq_append l [] (by simpa using h)]
  simp

/-! ## Characterization of the normalizer -/

theorem validTypes_ne_empty (s : String) (h : s ∈ validTypes) : (s != "") = true := by
  fin_cases h <;> decide

theorem buildDataset_ok (d : JValue) (h : datasetOk d = true) :
    buildDataset d = .ok (builtDataset d) := by
  rcases Bool.and_eq_true .. ▸ h with ⟨h1, h2⟩
  simp [buildDataset, h1, h2]

theorem mapDatasets_ok (ds : List JValue) (h : ∀ d ∈ ds, datasetOk d = true) :
    mapDatasets ds = .ok (ds.map builtDataset) := by
  induction ds with
  | nil => rfl
  | cons d rest ih =>
    have hd := buildDataset_ok d (h d (List.mem_cons_self _ _))
    have hr := ih fun d' hd' => h d' (List.mem_cons_of_mem _ hd')
    simp only [mapDatasets, hd, hr]
    rfl

theorem buildDataset_eq (d : JValue) :
    buildDataset d =
      if datasetOk d = true then .ok (builtDataset d)
      else .error ⟨.InvalidParams, "Each dataset must have a data property"⟩ := by
  cases h1 : truthyV d <;> cases h2 : truthyV (d.get "data") <;>
    simp [buildDataset, datasetOk, h1, h2]

theorem mapDatasets_inv (ds : List JValue) (ms : List JValue)
    (h : mapDatasets ds = .ok ms) :
    (∀ d ∈ ds, datasetOk d = true) ∧ ms = ds.map builtDataset := by
  induction ds generalizing ms with
  | nil =>
    simp only [mapDatasets] at h
    injection h with h
    refine ⟨?_, h.symm⟩
    intro d hd
    cases hd
  | cons d rest ih =>
    simp only [mapDatasets] at h
    rw [buildDataset_eq] at h
    by_cases hd : datasetOk d = true
    · rw [if_pos hd] at h
      cases hmr : mapDatasets rest with
      | error e =>
        rw [hmr] at h
        simp [Bind.bind, Except.bind] at h
      | ok cs =>
        rw [hmr] at h
        simp only [Bind.bind, Except.bind] at h
        injection h with h
        obtain ⟨hall, hcs⟩ := ih cs hmr
        constructor
        · intro d' hd'
          rcases List.mem_cons.mp hd' with hh | hh
          · exact hh ▸ hd
          · exact hall d' hh
        · rw [← h, hcs, List.map_cons]
    · rw [if_neg hd] at h
      simp [Bind.bind, Except.bind] at h

theorem checkPoints_ok (s : String) (ds : List JValue)
    (h : ∀ d ∈ ds, isArrayV ((d.get "data").getIndex 0) = true) :
    checkPoints s ds = .ok () := by
  induction ds with
  | nil => rfl
  | cons d rest ih =>
    have hd := h d (List.mem_cons_self _ _)
    simp only [checkPoints, hd, Bool.not_true]
    exact ih fun d' hd' => h d' (List.mem_cons_of_mem _ hd')

theorem checkPoints_err (s : String) (ds : List JValue)
    (h : ∃ d ∈ ds, isArrayV ((d.get "data").getIndex 0) = false) :
    checkPoints s ds = .error ⟨.InvalidParams,
      s ++ " requires data points in [x, y" ++
        (if s = "bubble" then ", r" else "") ++ "] format"⟩ := by
  induction ds with
  | nil => obtain ⟨d, hd, _⟩ := h; cases hd
  | cons d rest ih =>
    by_cases hd : isArrayV ((d.get "data").getIndex 0) = true
    · simp only [checkPoints, hd, Bool.not_true]
      apply ih
      obtain ⟨d', hd', hbad⟩ := h
      rcases List.mem_cons.mp hd' with hh | hh
      · rw [hh] at hbad
        rw [hbad] at hd
        cases hd
      · exact ⟨d', hh, hbad⟩
    · have hd' : isArrayV ((d.get "data").getIndex 0) = false := by
        cases hh : isArrayV ((d.get "data").getIndex 0)
        · rfl
        · exact absurd hh hd
      simp only [checkPoints, hd', Bool.not_false]
      rfl

theorem generateChartConfig_ok (args : JValue) (s : String) (ds : List JValue)
    (htr : truthyV args = true)
    (htype : args.get "type" = .str s)
    (hmem : s ∈ validTypes)
    (hds : args.get "datasets" = .arr ds)
    (hok : ∀ d ∈ ds, datasetOk d = true)
    (hg : isGaugeType s = true → truthyV (gaugeFirstValue (.arr ds)) = true)
    (hp : isPointType s = true → ∀ d ∈ ds, isArrayV ((d.get "data").getIndex 0) = true) :
    generateChartConfig args = .ok (configOf args s ds) := by
  have hne : (s != "") = true := validTypes_ne_empty s hmem
  have hcontains : validTypes.contains s = true := List.elem_eq_true_of_mem hmem
  unfold generateChartConfig
  rw [htr, htype, hds]
  simp only [show truthyV (JValue.str s) = (s != "") from rfl, hne, Bool.not_true,
    Bool.false_eq_true, if_false, validateChartType, isValidChartTypeV, hcontains,
    if_true, mapDatasets_ok ds hok]
  by_cases hgauge : isGaugeType s = true
  · simp [hgauge, hg hgauge, configOf, optionsOf]
  · have hgauge2 : isGaugeType s = false := by
      cases hh : isGaugeType s
      · rfl
      · exact absurd hh hgauge
    by_cases hpoint : isPointType s = true
    · simp [hgauge2, hpoint, checkPoints_ok s ds (hp hpoint), configOf, optionsOf]
    · have hpoint2 : isPointType s = false := by
        cases hh : isPointType s
        · rfl
        · exact absurd hh hpoint
      simp [hgauge2, hpoint2, configOf, optionsOf]

theorem validateChartType_ok_inv (t : JValue) (h : validateChartType t = .ok ()) :
    ∃ s, t = .str s ∧ s ∈ validTypes := by
  cases t <;> simp only [validateChartType, isValidChartTypeV] at h <;> try cases h
  case str s =>
    refine ⟨s, rfl, ?_⟩
    by_cases hc : validTypes.contains s = true
    · exact List.mem_of_elem_eq_true hc
    · rw [if_neg (by simpa using hc)] at h
      cases h

theorem generateChartConfig_inv (args : JValue) (cfg : JValue)
    (h : generateChartConfig args = .ok cfg) :
    ∃ s ds, truthyV args = true ∧ args.get "type" = .str s ∧ s ∈ validTypes ∧
      args.get "datasets" = .arr ds ∧ (∀ d ∈ ds, datasetOk d = true) ∧
      (isGaugeType s = true → truthyV (gaugeFirstValue (.arr ds)) = true) ∧
      cfg = configOf args s ds := by
  unfold generateChartConfig at h
  by_cases h1 : truthyV args = true
  swap
  · rw [if_pos (by simpa using h1)] at h
    cases h
  rw [if_neg (by simp [h1])] at h
  by_cases h2 : truthyV (args.get "type") = true
  swap
  · rw [if_pos (by simpa using h2)] at h
    cases h
  rw [if_neg (by simp [h2])] at h
  cases hds : args.get "datasets" with
  | arr ds =>
    rw [hds] at h
    dsimp only at h
    cases hvt : validateChartType (args.get "type") with
    | error e =>
      rw [hvt] at h
      cases h
    | ok u =>
      cases u
      obtain ⟨s, hts, hmem⟩ := validateChartType_ok_inv _ hvt
      rw [hvt] at h
      cases hmd : mapDatasets ds with
      | error e =>
        rw [hmd] at h
        cases h
      | ok mapped =>
        rw [hmd] at h
        obtain ⟨hall, hmap⟩ := mapDatasets_inv ds mapped hmd
        subst hmap
        rw [hts] at h
        dsimp only at h
        refine ⟨s, ds, h1, hts, hmem, rfl, hall, ?_⟩
        by_cases hgauge : isGaugeType s = true
        · rw [if_pos hgauge] at h
          by_cases hgv : truthyV (gaugeFirstValue (.arr ds)) = true
          · rw [if_neg (by simp [hgv])] at h
            injection h with h
            refine ⟨fun _ => hgv, ?_⟩
            rw [← h]
            simp [configOf, optionsOf, hgauge]
          · rw [if_pos (by simpa using hgv)] at h
            cases h
        · have hgauge2 : isGaugeType s = false := by
            cases hh : isGaugeType s
            · rfl
            · exact absurd hh hgauge
          rw [if_neg (by simp [hgauge2])] at h
          refine ⟨fun hc => absurd hc hgauge, ?_⟩
          by_cases hpoint : isPointType s = true
          · rw [if_pos hpoint] at h
            cases hcp : checkPoints s ds with
            | error e =>
              rw [hcp] at h
              cases h
            | ok u =>
              cases u
              rw [hcp] at h
              injection h with h
              rw [← h]
              simp [configOf, optionsOf, hgauge2]
          · rw [if_neg hpoint] at h
            injection h with h
            rw [← h]
            simp [configOf, optionsOf, hgauge2]
  | undef => rw [hds] at h; cases h
  | null => rw [hds] at h; cases h
  | bool b => rw [hds] at h; cases h
  | num n => rw [hds] at h; cases h
  | str s => rw [hds] at h; cases h
  | obj fs => rw [hds] at h; cases h
  | func f => rw [hds] at h; cases h

theorem isGaugeType_mem (s : String) (h : isGaugeType s = true) : s ∈ validTypes := by
  simp only [isGaugeType, Bool.or_eq_true, beq_iff_eq] at h
  rcases h with h | h <;> subst h <;> decide

theorem isPointType_mem (s : String) (h : isPointType s = true) : s ∈ validTypes := by
  simp only [isPointType, Bool.or_eq_true, beq_iff_eq] at h
  rcases h with h | h <;> subst h <;> decide

theorem isPointType_not_gauge (s : String) (h : isPointType s = true) :
    isGaugeType s = false := by
  simp only [isPointType, Bool.or_eq_true, beq_iff_eq] at h
  rcases h with h | h <;> subst h <;> decide

/-- The gauge branch rejects when the optional chain is falsy. -/
theorem generateChartConfig_gauge_err (args : JValue) (s : String) (ds : List JValue)
    (htr : truthyV args = true)
    (htype : args.get "type" = .str s)
    (hds : args.get "datasets" = .arr ds)
    (hok : ∀ d ∈ ds, datasetOk d = true)
    (hgauge : isGaugeType s = true)
    (hfv : truthyV (gaugeFirstValue (.arr ds)) = false) :
    generateChartConfig args =
      .error ⟨.InvalidParams, s ++ " requires a single numeric value"⟩ := by
  have hmem : s ∈ validTypes := isGaugeType_mem s hgauge
  have hne : (s != "") = true := validTypes_ne_empty s hmem
  have hcontains : validTypes.contains s = true := List.elem_eq_true_of_mem hmem
  unfold generateChartConfig
  rw [htr, htype, hds]
  simp only [show truthyV (JValue.str s) = (s != "") from rfl, hne, Bool.not_true,
    Bool.false_eq_true, if_false, validateChartType, isValidChartTypeV, hcontains,
    if_true, mapDatasets_ok ds hok]
  simp [hgauge, hfv]

/-- The scatter/bubble branch rejects when some raw dataset has a
non-array first data element. -/
theorem generateChartConfig_point_err (args : JValue) (s : String) (ds : List JValue)
    (htr : truthyV args = true)
    (htype : args.get "type" = .str s)
    (hds : args.get "datasets" = .arr ds)
    (hok : ∀ d ∈ ds, datasetOk d = true)
    (hpoint : isPointType s = true)
    (hbad : ∃ d ∈ ds, isArrayV ((d.get "data").getIndex 0) = false) :
    generateChartConfig args =
      .error ⟨.InvalidParams, s ++ " requires data points in [x, y" ++
        (if s = "bubble" then ", r" else "") ++ "] format"⟩ := by
  have hmem : s ∈ validTypes := isPointType_mem s hpoint
  have hne : (s != "") = true := validTypes_ne_empty s hmem
  have hcontains : validTypes.contains s = true := List.elem_eq_true_of_mem hmem
  unfold generateChartConfig
  rw [htr, htype, hds]
  simp only [show truthyV (JValue.str s) = (s != "") from rfl, hne, Bool.not_true,
    Bool.false_eq_true, if_false, validateChartType, isValidChartTypeV, hcontains,
    if_true, mapDatasets_ok ds hok]
  simp [isPointType_not_gauge s hpoint, hpoint, checkPoints_err s ds hbad]

theorem lookupField_mkObj_append_skip (l1 l2 : List (String × JValue)) (k : String)
    (h2 : hasKey l2 k = false) (h1 : nodupKeys l1 = true) :
    lookupField (mkObj (l1 ++ l2)) k = lookupField l1 k := by
  unfold mkObj
  rw [List.foldl_append, lookupField_foldl_not_hasKey l2 k h2,
    show List.foldl (fun acc p => insertField acc p.1 p.2) [] l1 = mkObj l1 from rfl,
    mkObj_eq_self l1 h1]

theorem lookupField_mkObj_append_mem (l1 l2 : List (String × JValue)) (k : String)
    (v : JValue) (hnd : nodupKeys l2 = true) (hmem : (k, v) ∈ l2) :
    lookupField (mkObj (l1 ++ l2)) k = v := by
  unfold mkObj
  rw [List.foldl_append]
  exact lookupField_foldl_mem_nodup l2 k v hnd hmem _

theorem get_obj (fs : List (String × JValue)) (k : String) :
    (JValue.obj fs).get k = lookupField fs k := rfl

theorem nodupKeys_datasetBase (a b c e : JValue) :
    nodupKeys [("label", a), ("data", b), ("backgroundColor", c),
      ("borderColor", e)] = true := by
  simp [nodupKeys]

/-! ## Claims -/

/-- C1: for every chart description whose type is one of the ten
enumerated chart kinds and whose datasets is a sequence of datasets
each having a truthy (concrete) data value, satisfying the
type-specific rules for gauge and scatter/bubble types, normalization
returns successfully and the resulting canonical configuration has a
type field equal to the input type. -/
theorem claim_C1 (args : JValue) (s : String) (ds : List JValue)
    (htr : truthyV args = true)
    (htype : args.get "type" = .str s)
    (hmem : s ∈ validTypes)
    (hds : args.get "datasets" = .arr ds)
    (hok : ∀ d ∈ ds, datasetOk d = true)
    (hg : isGaugeType s = true → truthyV (gaugeFirstValue (.arr ds)) = true)
    (hp : isPointType s = true → ∀ d ∈ ds, isArrayV ((d.get "data").getIndex 0) = true) :
    ∃ cfg, generateChartConfig args = .ok cfg ∧ cfg.get "type" = .str s :=
  ⟨configOf args s ds,
    generateChartConfig_ok args s ds htr htype hmem hds hok hg hp, rfl⟩

theorem claim_C1_witness :
    ∃ cfg, generateChartConfig (JValue.obj [("type", .str "bar"),
        ("datasets", .arr [.obj [("data", .arr [.num 1, .num 2])]])]) = .ok cfg ∧
      cfg.get "type" = .str "bar" :=
  claim_C1 _ "bar" [.obj [("data", .arr [.num 1, .num 2])]] rfl rfl (by decide) rfl
    (by
      intro d hd
      rw [List.mem_singleton] at hd
      subst hd
      rfl)
    (by intro h; cases h) (by intro h; cases h)

/-- C2: the rejection gates run in order as short-circuit checks:
falsy input fails first with the missing-input message, then an absent
(falsy) type, then datasets absent or not an array, and only then is
the type validated against the enumerated set, every invalid type
failing with the message listing all ten valid values. -/
theorem claim_C2 :
    (∀ args, truthyV args = false →
      generateChartConfig args =
        .error ⟨.InvalidParams, "No arguments provided to generateChartConfig"⟩) ∧
    (∀ args, truthyV args = true → truthyV (args.get "type") = false →
      generateChartConfig args = .error ⟨.InvalidParams, "Chart type is required"⟩) ∧
    (∀ args, truthyV args = true → truthyV (args.get "type") = true →
      isArrayV (args.get "datasets") = false →
      generateChartConfig args =
        .error ⟨.InvalidParams, "Datasets must be a non-empty array"⟩) ∧
    (∀ args ds, truthyV args = true → truthyV (args.get "type") = true →
      args.get "datasets" = .arr ds →
      isValidChartTypeV (args.get "type") = false →
      generateChartConfig args = .error ⟨.InvalidParams,
        "Invalid chart type. Must be one of: bar, line, pie, doughnut, radar, polarArea, scatter, bubble, radialGauge, speedometer"⟩) := by
  refine ⟨?_, ?_, ?_, ?_⟩
  · intro args h
    unfold generateChartConfig
    rw [if_pos (by simp [h])]
  · intro args h1 h2
    unfold generateChartConfig
    rw [if_neg (by simp [h1]), if_pos (by simp [h2])]
  · intro args h1 h2 h3
    unfold generateChartConfig
    rw [if_neg (by simp [h1]), if_neg (by simp [h2])]
    cases hv : args.get "datasets" with
    | arr ds =>
      rw [hv] at h3
      simp [isArrayV] at h3
    | undef => rfl
    | null => rfl
    | bool b => rfl
    | num n => rfl
    | str s => rfl
    | obj fs => rfl
    | func f => rfl
  · intro args ds h1 h2 hds hnv
    have hvt : validateChartType (args.get "type") = .error ⟨.InvalidParams,
        "Invalid chart type. Must be one of: " ++ String.intercalate ", " validTypes⟩ := by
      unfold validateChartType
      rw [if_neg (by simp [hnv])]
    unfold generateChartConfig
    rw [if_neg (by simp [h1]), if_neg (by simp [h2]), hds]
    dsimp only
    rw [hvt]
    rfl

theorem claim_C2_witness :
    generateChartConfig .null =
      .error ⟨.InvalidParams, "No arguments provided to generateChartConfig"⟩ ∧
    generateChartConfig (.obj []) =
      .error ⟨.InvalidParams, "Chart type is required"⟩ ∧
    generateChartConfig (.obj [("type", .str "bar"), ("datasets", .num 3)]) =
      .error ⟨.InvalidParams, "Datasets must be a non-empty array"⟩ ∧
    generateChartConfig (.obj [("type", .str "banana"), ("datasets", .arr [])]) =
      .error ⟨.InvalidParams,
        "Invalid chart type. Must be one of: bar, line, pie, doughnut, radar, polarArea, scatter, bubble, radialGauge, speedometer"⟩ :=
  ⟨claim_C2.1 _ rfl, claim_C2.2.1 _ rfl rfl, claim_C2.2.2.1 _ rfl rfl rfl,
    claim_C2.2.2.2 _ [] rfl rfl rfl rfl⟩

/-- C9: for every dataset passing validation, the canonical dataset
defaults label to the empty string when absent, passes data and the
color fields through unchanged, and shallow-merges the keys of the
additionalConfig mapping last so that they override the base fields
(last-write-wins). -/
theorem claim_C9 (d : JValue) (acfs : List (String × JValue))
    (hok : datasetOk d = true)
    (hac : spreadFields (if truthyV (d.get "additionalConfig")
        then d.get "additionalConfig" else .obj []) = acfs)
    (hnd : nodupKeys acfs = true) :
    buildDataset d = .ok (builtDataset d) ∧
    (hasKey acfs "label" = false → d.get "label" = .undef →
      (builtDataset d).get "label" = .str "") ∧
    (hasKey acfs "data" = false → (builtDataset d).get "data" = d.get "data") ∧
    (hasKey acfs "backgroundColor" = false →
      (builtDataset d).get "backgroundColor" = d.get "backgroundColor") ∧
    (hasKey acfs "borderColor" = false →
      (builtDataset d).get "borderColor" = d.get "borderColor") ∧
    (∀ k v, (k, v) ∈ acfs → (builtDataset d).get k = v) := by
  refine ⟨buildDataset_ok d hok, ?_, ?_, ?_, ?_, ?_⟩
  · intro hk hl
    unfold builtDataset
    rw [hac, get_obj,
      lookupField_mkObj_append_skip _ acfs "label" hk (nodupKeys_datasetBase ..), hl]
    simp [lookupField, truthyV]
  · intro hk
    unfold builtDataset
    rw [hac, get_obj,
      lookupField_mkObj_append_skip _ acfs "data" hk (nodupKeys_datasetBase ..)]
    simp [lookupField]
  · intro hk
    unfold builtDataset
    rw [hac, get_obj,
      lookupField_mkObj_append_skip _ acfs "backgroundColor" hk (nodupKeys_datasetBase ..)]
    simp [lookupField]
  · intro hk
    unfold builtDataset
    rw [hac, get_obj,
      lookupField_mkObj_append_skip _ acfs "borderColor" hk (nodupKeys_datasetBase ..)]
    simp [lookupField]
  · intro k v hmem
    unfold builtDataset
    rw [hac, get_obj]
    exact lookupField_mkObj_append_mem _ acfs k v hnd hmem

theorem claim_C9_witness :
    (let d : JValue := .obj [("data", .arr [.num 1]),
      ("backgroundColor", .str "red"),
      ("additionalConfig", .obj [("label", .str "override"), ("extra", .num 7)])]
    buildDataset d = .ok (builtDataset d) ∧
      (builtDataset d).get "data" = .arr [.num 1] ∧
      (builtDataset d).get "backgroundColor" = .str "red" ∧
      (builtDataset d).get "label" = .str "override" ∧
      (builtDataset d).get "extra" = .num 7) := by
  have h := claim_C9
    (.obj [("data", .arr [.num 1]), ("backgroundColor", .str "red"),
      ("additionalConfig", .obj [("label", .str "override"), ("extra", .num 7)])])
    [("label", .str "override"), ("extra", .num 7)] rfl rfl rfl
  exact ⟨h.1,
    by rw [h.2.2.1 rfl]; rfl,
    by rw [h.2.2.2.1 rfl]; rfl,
    h.2.2.2.2.2 "label" (.str "override") (by simp),
    h.2.2.2.2.2 "extra" (.num 7) (by simp)⟩

/-- C10: for every valid chart type other than radialGauge and
speedometer, normalization of an input whose datasets is the empty
sequence succeeds and yields an empty canonical datasets sequence;
emptiness is never rejected, and the scatter/bubble per-dataset check
holds vacuously. -/
theorem claim_C10 (args : JValue) (s : String)
    (htr : truthyV args = true)
    (htype : args.get "type" = .str s)
    (hmem : s ∈ validTypes)
    (hng : isGaugeType s = false)
    (hds : args.get "datasets" = .arr []) :
    ∃ cfg, generateChartConfig args = .ok cfg ∧
      (cfg.get "data").get "datasets" = .arr [] :=
  ⟨configOf args s [],
    generateChartConfig_ok args s [] htr htype hmem hds
      (by intro d hd; cases hd)
      (fun hg => absurd hg (by simp [hng]))
      (by intro _ d hd; cases hd), rfl⟩

theorem claim_C10_witness :
    ∃ cfg, generateChartConfig (JValue.obj [("type", .str "scatter"),
        ("datasets", .arr [])]) = .ok cfg ∧
      (cfg.get "data").get "datasets" = .arr [] :=
  claim_C10 _ "scatter" rfl rfl (by decide) rfl rfl

/-- C4 (amended): for every input on which normalization succeeds and
in which a nonempty title string was supplied, the canonical options
contain title = {display: true, text: title}, regardless of any
options.title supplied by the caller. (An empty title string is falsy
and is not propagated; see the counterexample.) -/
theorem claim_C4 (args cfg : JValue) (t : String)
    (h : generateChartConfig args = .ok cfg)
    (ht : args.get "title" = .str t)
    (hne : t ≠ "") :
    (cfg.get "options").get "title" =
      .obj [("display", .bool true), ("text", .str t)] := by
  obtain ⟨s, ds, htr, htype, hmem, hds, hall, hg, hcfg⟩ :=
    generateChartConfig_inv args cfg h
  subst hcfg
  have htt : truthyV (args.get "title") = true := by
    rw [ht]
    simp [truthyV, hne]
  have hF : nodupKeys (buildOptions (optionsOf args) (args.get "title")) = true := by
    unfold buildOptions
    exact nodupKeys_mkObj _
  have hlook : lookupField (buildOptions (optionsOf args) (args.get "title")) "title" =
      .obj [("display", .bool true), ("text", .str t)] := by
    unfold buildOptions
    rw [if_pos htt, lookupField_mkObj_append_last, ht]
  by_cases hgauge : isGaugeType s = true
  · have h1 : (configOf args s ds).get "options" =
        .obj (mkObj (buildOptions (optionsOf args) (args.get "title") ++
          [("plugins", gaugePlugins)])) := by
      simp [configOf, hgauge, get_obj, lookupField]
    rw [h1, get_obj]
    unfold mkObj
    rw [List.foldl_append,
      show List.foldl (fun acc p => insertField acc p.1 p.2) []
        (buildOptions (optionsOf args) (args.get "title")) =
        mkObj (buildOptions (optionsOf args) (args.get "title")) from rfl,
      mkObj_eq_self _ hF]
    simp only [List.foldl_cons, List.foldl_nil]
    rw [lookupField_insert_ne _ "plugins" "title" _ (by decide)]
    exact hlook
  · have hgauge2 : isGaugeType s = false := by
      cases hh : isGaugeType s
      · rfl
      · exact absurd hh hgauge
    have h1 : (configOf args s ds).get "options" =
        .obj (buildOptions (optionsOf args) (args.get "title")) := by
      simp [configOf, hgauge2, get_obj, lookupField]
    rw [h1, get_obj]
    exact hlook

theorem claim_C4_witness :
    ∃ cfg, generateChartConfig (.obj [("type", .str "line"),
        ("datasets", .arr [.obj [("data", .arr [.num 1])]]),
        ("title", .str "Sales"),
        ("options", .obj [("title", .num 9)])]) = .ok cfg ∧
      (cfg.get "options").get "title" =
        .obj [("display", .bool true), ("text", .str "Sales")] := by
  refine ⟨_, rfl, ?_⟩
  exact claim_C4 (.obj [("type", .str "line"),
    ("datasets", .arr [.obj [("data", .arr [.num 1])]]),
    ("title", .str "Sales"),
    ("options", .obj [("title", .num 9)])]) _ "Sales" rfl rfl (by decide)

/-- C4 counterexample: an empty (hence falsy) supplied title string is
not propagated; the caller-supplied options.title survives instead of
being overwritten by {display: true, text: ""}. -/
theorem claim_C4_counterexample :
    ∃ cfg, generateChartConfig (.obj [("type", .str "bar"),
        ("datasets", .arr [.obj [("data", .arr [.num 1])]]),
        ("title", .str ""), ("options", .obj [("title", .num 5)])]) = .ok cfg ∧
      (JValue.obj [("type", .str "bar"),
        ("datasets", .arr [.obj [("data", .arr [.num 1])]]),
        ("title", .str ""), ("options", .obj [("title", .num 5)])]).get "title" =
        .str "" ∧
      (cfg.get "options").get "title" = .num 5 ∧
      (cfg.get "options").get "title" ≠
        .obj [("display", .bool true), ("text", .str "")] := by
  refine ⟨_, rfl, rfl, rfl, ?_⟩
  intro hh
  cases hh

/-- C5: for type radialGauge or speedometer, normalization fails with
the terminal gauge validation error whenever the chained first data
value is falsy — in particular on an empty data sequence and on the
value 0 — and on success the canonical options contain a
plugins.datalabels block whose formatter echoes the raw value. -/
theorem claim_C5 :
    (∀ args s ds, truthyV args = true → args.get "type" = .str s →
      args.get "datasets" = .arr ds → (∀ d ∈ ds, datasetOk d = true) →
      isGaugeType s = true → truthyV (gaugeFirstValue (.arr ds)) = false →
      generateChartConfig args =
        .error ⟨.InvalidParams, s ++ " requires a single numeric value"⟩) ∧
    (generateChartConfig (.obj [("type", .str "radialGauge"),
        ("datasets", .arr [.obj [("data", .arr [])]])]) =
      .error ⟨.InvalidParams, "radialGauge requires a single numeric value"⟩) ∧
    (generateChartConfig (.obj [("type", .str "speedometer"),
        ("datasets", .arr [.obj [("data", .arr [.num 0])]])]) =
      .error ⟨.InvalidParams, "speedometer requires a single numeric value"⟩) ∧
    (∀ args s ds, truthyV args = true → args.get "type" = .str s →
      args.get "datasets" = .arr ds → (∀ d ∈ ds, datasetOk d = true) →
      isGaugeType s = true → truthyV (gaugeFirstValue (.arr ds)) = true →
      ∃ cfg, generateChartConfig args = .ok cfg ∧
        ((cfg.get "options").get "plugins").get "datalabels" =
          .obj [("display", .bool true), ("formatter", .func .identityFormatter)] ∧
        ∀ v, applyFunc .identityFormatter v = v) := by
  refine ⟨?_, rfl, rfl, ?_⟩
  · intro args s ds htr htype hds hok hgauge hfv
    exact generateChartConfig_gauge_err args s ds htr htype hds hok hgauge hfv
  · intro args s ds htr htype hds hok hgauge hfv
    refine ⟨configOf args s ds, generateChartConfig_ok args s ds htr htype
      (isGaugeType_mem s hgauge) hds hok (fun _ => hfv)
      (fun hp => absurd (isPointType_not_gauge s hp) (by simp [hgauge])),
      ?_, fun v => rfl⟩
    have h1 : (configOf args s ds).get "options" =
        .obj (mkObj (buildOptions (optionsOf args) (args.get "title") ++
          [("plugins", gaugePlugins)])) := by
      simp [configOf, hgauge, get_obj, lookupField]
    rw [h1, get_obj, lookupField_mkObj_append_last]
    rfl

theorem claim_C5_witness :
    generateChartConfig (.obj [("type", .str "radialGauge"),
        ("datasets", .arr [.obj [("data", .arr [])]])]) =
      .error ⟨.InvalidParams, "radialGauge requires a single numeric value"⟩ ∧
    (∃ cfg, generateChartConfig (.obj [("type", .str "radialGauge"),
        ("datasets", .arr [.obj [("data", .arr [.num 75])]])]) = .ok cfg ∧
      ((cfg.get "options").get "plugins").get "datalabels" =
        .obj [("display", .bool true), ("formatter", .func .identityFormatter)] ∧
      ∀ v, applyFunc .identityFormatter v = v) :=
  ⟨claim_C5.1 _ "radialGauge" [.obj [("data", .arr [])]] rfl rfl rfl
    (by
      intro d hd
      rw [List.mem_singleton] at hd
      subst hd
      rfl) rfl rfl,
   claim_C5.2.2.2 _ "radialGauge" [.obj [("data", .arr [.num 75])]] rfl rfl rfl
    (by
      intro d hd
      rw [List.mem_singleton] at hd
      subst hd
      rfl) rfl rfl⟩

/-- C6: for type scatter or bubble, normalization fails with the
point-format error whenever some raw dataset has a non-array first
data element, succeeds when every dataset has an array first data
element, and only the first element of each data sequence is checked
(an irregular tail is accepted). -/
theorem claim_C6 :
    (∀ args s ds, truthyV args = true → args.get "type" = .str s →
      args.get "datasets" = .arr ds → (∀ d ∈ ds, datasetOk d = true) →
      isPointType s = true →
      (∃ d ∈ ds, isArrayV ((d.get "data").getIndex 0) = false) →
      generateChartConfig args = .error ⟨.InvalidParams,
        s ++ " requires data points in [x, y" ++
          (if s = "bubble" then ", r" else "") ++ "] format"⟩) ∧
    (∀ args s ds, truthyV args = true → args.get "type" = .str s →
      args.get "datasets" = .arr ds → (∀ d ∈ ds, datasetOk d = true) →
      isPointType s = true →
      (∀ d ∈ ds, isArrayV ((d.get "data").getIndex 0) = true) →
      ∃ cfg, generateChartConfig args = .ok cfg) ∧
    (∃ cfg, generateChartConfig (.obj [("type", .str "scatter"),
        ("datasets", .arr [.obj [("data",
          .arr [.arr [.num 1, .num 2], .num 5])]])]) = .ok cfg) := by
  refine ⟨?_, ?_, ⟨_, rfl⟩⟩
  · intro args s ds htr htype hds hok hpoint hbad
    exact generateChartConfig_point_err args s ds htr htype hds hok hpoint hbad
  · intro args s ds htr htype hds hok hpoint hgood
    exact ⟨configOf args s ds, generateChartConfig_ok args s ds htr htype
      (isPointType_mem s hpoint) hds hok
      (fun hg => absurd (isPointType_not_gauge s hpoint) (by simp [hg]))
      (fun _ => hgood)⟩

theorem claim_C6_witness :
    generateChartConfig (.obj [("type", .str "scatter"),
        ("datasets", .arr [.obj [("data", .arr [.num 1, .num 2])]])]) =
      .error ⟨.InvalidParams, "scatter requires data points in [x, y] format"⟩ ∧
    (∃ cfg, generateChartConfig (.obj [("type", .str "bubble"),
        ("datasets", .arr [.obj [("data",
          .arr [.arr [.num 1, .num 2, .num 3]])]])]) = .ok cfg) :=
  ⟨by
    have h := claim_C6.1 (.obj [("type", .str "scatter"),
        ("datasets", .arr [.obj [("data", .arr [.num 1, .num 2])]])])
      "scatter" [.obj [("data", .arr [.num 1, .num 2])]] rfl rfl rfl
      (by
        intro d hd
        rw [List.mem_singleton] at hd
        subst hd
        rfl) rfl
      ⟨.obj [("data", .arr [.num 1, .num 2])], List.mem_singleton.mpr rfl, rfl⟩
    simpa using h,
   claim_C6.2.1 (.obj [("type", .str "bubble"),
        ("datasets", .arr [.obj [("data",
          .arr [.arr [.num 1, .num 2, .num 3]])]])])
      "bubble" [.obj [("data", .arr [.arr [.num 1, .num 2, .num 3]])]] rfl rfl rfl
      (by
        intro d hd
        rw [List.mem_singleton] at hd
        subst hd
        rfl) rfl
      (by
        intro d hd
        rw [List.mem_singleton] at hd
        subst hd
        rfl)⟩

/-! ## The nested-shape adapter -/

theorem lookupField_liftNested_ne (orig : JValue) (cur : List (String × JValue))
    (k k' : String) (h : k' ≠ k) :
    lookupField (liftNested orig cur k) k' = lookupField cur k' := by
  unfold liftNested
  dsimp only
  split
  · exact lookupField_insert_ne cur k k' _ h
  · rfl

theorem lookupField_liftNested_self (orig : JValue) (cur : List (String × JValue))
    (k : String) :
    lookupField (liftNested orig cur k) k =
      if truthyV (orig.get "data") && isObjectTypeof (orig.get "data") &&
          truthyV ((orig.get "data").get k) && !truthyV (lookupField cur k)
      then (orig.get "data").get k
      else lookupField cur k := by
  unfold liftNested
  dsimp only
  split
  · exact lookupField_insert_self cur k _
  · rfl

/-- C7 counterexample: the adapter overwrites a top-level `datasets`
field that is present (with the falsy value `null`), contradicting the
claim that a present top-level field is never overwritten. -/
theorem claim_C7_counterexample :
    hasKey [("type", JValue.str "pie"), ("datasets", JValue.null),
      ("data", .obj [("datasets", .arr [.obj [("data", .arr [.num 1])]])])]
      "datasets" = true ∧
    lookupField (adaptConfig (.obj [("type", .str "pie"), ("datasets", .null),
      ("data", .obj [("datasets", .arr [.obj [("data", .arr [.num 1])]])])]))
      "datasets" = .arr [.obj [("data", .arr [.num 1])]] ∧
    lookupField (adaptConfig (.obj [("type", .str "pie"), ("datasets", .null),
      ("data", .obj [("datasets", .arr [.obj [("data", .arr [.num 1])]])])]))
      "datasets" ≠ .null := by
  refine ⟨rfl, rfl, ?_⟩
  intro hh
  cases hh

/-- C7 (amended): the download shape adapter lifts each of datasets,
labels and type from the nested data member exactly when the nested
value is truthy inside a truthy object-typed data member and the
corresponding top-level field is falsy (absent, or present with a
falsy value such as null — a present falsy field is overwritten); a
truthy top-level field is never overwritten; and the nested pie
example normalizes identically to its flat equivalent. -/
theorem claim_C7 (fs : List (String × JValue)) (hnd : nodupKeys fs = true) :
    (∀ k, k = "datasets" ∨ k = "labels" ∨ k = "type" →
      lookupField (adaptConfig (.obj fs)) k =
        (if truthyV ((JValue.obj fs).get "data") &&
            isObjectTypeof ((JValue.obj fs).get "data") &&
            truthyV (((JValue.obj fs).get "data").get k) &&
            !truthyV ((JValue.obj fs).get k)
         then ((JValue.obj fs).get "data").get k
         else (JValue.obj fs).get k)) ∧
    generateChartConfig (.obj (adaptConfig (.obj [("type", .str "pie"),
      ("data", .obj [("datasets", .arr [.obj [("data", .arr [.num 1])]]),
                     ("labels", .arr [.str "a"])])]))) =
      generateChartConfig (.obj [("type", .str "pie"),
        ("datasets", .arr [.obj [("data", .arr [.num 1])]]),
        ("labels", .arr [.str "a"])]) := by
  have hn0 : mkObj (spreadFields (.obj fs)) = fs := mkObj_eq_self fs hnd
  constructor
  · intro k hk
    unfold adaptConfig
    rcases hk with hk | hk | hk <;> subst hk
    · rw [lookupField_liftNested_ne _ _ "type" "datasets" (by decide),
        lookupField_liftNested_ne _ _ "labels" "datasets" (by decide),
        lookupField_liftNested_self, hn0]
      rfl
    · rw [lookupField_liftNested_ne _ _ "type" "labels" (by decide),
        lookupField_liftNested_self,
        lookupField_liftNested_ne _ _ "datasets" "labels" (by decide), hn0]
      rfl
    · rw [lookupField_liftNested_self,
        lookupField_liftNested_ne _ _ "labels" "type" (by decide),
        lookupField_liftNested_ne _ _ "datasets" "type" (by decide), hn0]
      rfl
  · rfl

theorem claim_C7_witness :
    lookupField (adaptConfig (.obj [("type", .str "pie"),
      ("data", .obj [("datasets", .arr [.obj [("data", .arr [.num 1])]]),
                     ("labels", .arr [.str "a"])])])) "datasets" =
      .arr [.obj [("data", .arr [.num 1])]] ∧
    lookupField (adaptConfig (.obj [("type", .str "pie"),
      ("datasets", .arr [.obj [("data", .arr [.num 2])]]),
      ("data", .obj [("datasets", .arr [.obj [("data", .arr [.num 1])]])])]))
      "datasets" = .arr [.obj [("data", .arr [.num 2])]] := by
  constructor
  · rw [(claim_C7 [("type", .str "pie"),
      ("data", .obj [("datasets", .arr [.obj [("data", .arr [.num 1])]]),
                     ("labels", .arr [.str "a"])])] rfl).1 "datasets" (Or.inl rfl)]
    rfl
  · rw [(claim_C7 [("type", .str "pie"),
      ("datasets", .arr [.obj [("data", .arr [.num 2])]]),
      ("data", .obj [("datasets", .arr [.obj [("data", .arr [.num 1])]])])]
      rfl).1 "datasets" (Or.inl rfl)]
    rfl

/-! ## Effect ordering of the download handler -/

theorem noFetch_append (a b : List Effect) :
    noFetch (a ++ b) = (noFetch a && noFetch b) := by
  simp [noFetch, List.all_append]

theorem noWrite_append (a b : List Effect) :
    noWrite (a ++ b) = (noWrite a && noWrite b) := by
  simp [noWrite, List.all_append]

theorem resolveOutput_effects (env : DlEnv) (normalized userPath : JValue)
    (p : String) (effs : List Effect)
    (h : resolveOutput env normalized userPath = .ok (p, effs)) :
    noFetch effs = true ∧ noWrite effs = true := by
  unfold resolveOutput at h
  by_cases ht : truthyV userPath = true
  · rw [if_pos ht] at h
    cases userPath <;> try cases h
    exact ⟨rfl, rfl⟩
  · rw [if_neg ht] at h
    dsimp only at h
    injection h with h
    injection h with h1 h2
    subst h2
    exact ⟨rfl, rfl⟩

/-- C8: in the download operation every validation failure — config
shape failure, type/datasets failure after adaptation,
write-inaccessibility of the resolved output directory, or a
normalization failure — is reported before the network fetch is
attempted: the directory failure names the directory, and no fetch and
no file write appear in the effect trace of any of these failures. -/
theorem claim_C8 :
    (∀ env args,
      (truthyV (args.get "config") && isObjectTypeof (args.get "config")) = false →
      downloadChart env args =
        (.error ⟨.InvalidParams, "Config must be a valid chart configuration object"⟩,
         [])) ∧
    (∀ env args,
      (truthyV (args.get "config") && isObjectTypeof (args.get "config")) = true →
      (truthyV ((JValue.obj (adaptConfig (args.get "config"))).get "type") &&
        truthyV ((JValue.obj (adaptConfig (args.get "config"))).get "datasets")) = false →
      downloadChart env args = (.error ⟨.InvalidParams,
        "Config must include type and datasets properties (either at root level or inside data object)"⟩,
       [])) ∧
    (∀ env args p effs0,
      (truthyV (args.get "config") && isObjectTypeof (args.get "config")) = true →
      (truthyV ((JValue.obj (adaptConfig (args.get "config"))).get "type") &&
        truthyV ((JValue.obj (adaptConfig (args.get "config"))).get "datasets")) = true →
      resolveOutput env (.obj (adaptConfig (args.get "config")))
        (args.get "outputPath") = .ok (p, effs0) →
      env.writable (env.dirname p) = false →
      (downloadChart env args).1 = .error ⟨.InvalidParams,
        "Output directory does not exist or is not writable: " ++ env.dirname p⟩ ∧
      noFetch (downloadChart env args).2 = true ∧
      noWrite (downloadChart env args).2 = true) ∧
    (∀ env args p effs0 e,
      (truthyV (args.get "config") && isObjectTypeof (args.get "config")) = true →
      (truthyV ((JValue.obj (adaptConfig (args.get "config"))).get "type") &&
        truthyV ((JValue.obj (adaptConfig (args.get "config"))).get "datasets")) = true →
      resolveOutput env (.obj (adaptConfig (args.get "config")))
        (args.get "outputPath") = .ok (p, effs0) →
      env.writable (env.dirname p) = true →
      generateChartConfig (.obj (adaptConfig (args.get "config"))) = .error e →
      (downloadChart env args).1 = .error e ∧
      noFetch (downloadChart env args).2 = true ∧
      noWrite (downloadChart env args).2 = true) := by
  refine ⟨?_, ?_, ?_, ?_⟩
  · intro env args hc
    have hcond : (!truthyV (args.get "config") || !isObjectTypeof (args.get "config")) = true := by
      cases h1 : truthyV (args.get "config") <;>
        cases h2 : isObjectTypeof (args.get "config") <;> rw [h1, h2] at hc <;> simp_all
    unfold downloadChart
    dsimp only
    rw [if_pos hcond]
  · intro env args hc hn
    have hcond1 : ¬ ((!truthyV (args.get "config") || !isObjectTypeof (args.get "config")) = true) := by
      cases h1 : truthyV (args.get "config") <;>
        cases h2 : isObjectTypeof (args.get "config") <;> rw [h1, h2] at hc <;> simp_all
    have hcond2 : (!truthyV ((JValue.obj (adaptConfig (args.get "config"))).get "type") ||
        !truthyV ((JValue.obj (adaptConfig (args.get "config"))).get "datasets")) = true := by
      cases h1 : truthyV ((JValue.obj (adaptConfig (args.get "config"))).get "type") <;>
        cases h2 : truthyV ((JValue.obj (adaptConfig (args.get "config"))).get "datasets") <;>
          rw [h1, h2] at hn <;> simp_all
    unfold downloadChart
    dsimp only
    rw [if_neg hcond1, if_pos hcond2]
  · intro env args p effs0 hc hn hres hw
    have hcond1 : ¬ ((!truthyV (args.get "config") || !isObjectTypeof (args.get "config")) = true) := by
      cases h1 : truthyV (args.get "config") <;>
        cases h2 : isObjectTypeof (args.get "config") <;> rw [h1, h2] at hc <;> simp_all
    have hcond2 : ¬ ((!truthyV ((JValue.obj (adaptConfig (args.get "config"))).get "type") ||
        !truthyV ((JValue.obj (adaptConfig (args.get "config"))).get "datasets")) = true) := by
      cases h1 : truthyV ((JValue.obj (adaptConfig (args.get "config"))).get "type") <;>
        cases h2 : truthyV ((JValue.obj (adaptConfig (args.get "config"))).get "datasets") <;>
          rw [h1, h2] at hn <;> simp_all
    obtain ⟨hf0, hw0⟩ := resolveOutput_effects env _ _ p effs0 hres
    unfold downloadChart
    dsimp only
    rw [if_neg hcond1, if_neg hcond2, hres]
    dsimp only
    rw [if_pos (by simp [hw])]
    refine ⟨rfl, ?_, ?_⟩
    · rw [noFetch_append, hf0]
      rfl
    · rw [noWrite_append, hw0]
      rfl
  · intro env args p effs0 e hc hn hres hw hgen
    have hcond1 : ¬ ((!truthyV (args.get "config") || !isObjectTypeof (args.get "config")) = true) := by
      cases h1 : truthyV (args.get "config") <;>
        cases h2 : isObjectTypeof (args.get "config") <;> rw [h1, h2] at hc <;> simp_all
    have hcond2 : ¬ ((!truthyV ((JValue.obj (adaptConfig (args.get "config"))).get "type") ||
        !truthyV ((JValue.obj (adaptConfig (args.get "config"))).get "datasets")) = true) := by
      cases h1 : truthyV ((JValue.obj (adaptConfig (args.get "config"))).get "type") <;>
        cases h2 : truthyV ((JValue.obj (adaptConfig (args.get "config"))).get "datasets") <;>
          rw [h1, h2] at hn <;> simp_all
    obtain ⟨hf0, hw0⟩ := resolveOutput_effects env _ _ p effs0 hres
    unfold downloadChart
    dsimp only
    rw [if_neg hcond1, if_neg hcond2, hres]
    dsimp only
    rw [if_neg (by simp [hw]), hgen]
    refine ⟨rfl, ?_, ?_⟩
    · rw [noFetch_append, hf0]
      rfl
    · rw [noWrite_append, hw0]
      rfl

theorem claim_C8_witness :
    ((downloadChart
      { homeDir := "/home/u", timestamp := "20260101_000000",
        joinPath := fun a b => a ++ "/" ++ b, dirname := fun _ => "/out",
        desktopWritable := true, writable := fun _ => false,
        fetch := fun _ => .error ⟨none, "unreachable"⟩,
        writeFile := fun _ _ => .error ⟨none, "unreachable"⟩,
        pathTypeError := "path must be a string" }
      (.obj [("config", .obj [("type", .str "bar"),
          ("datasets", .arr [.obj [("data", .arr [.num 1])]])]),
        ("outputPath", .str "/out/x.png")])).1 =
      .error ⟨.InvalidParams,
        "Output directory does not exist or is not writable: /out"⟩) ∧
    noFetch (downloadChart
      { homeDir := "/home/u", timestamp := "20260101_000000",
        joinPath := fun a b => a ++ "/" ++ b, dirname := fun _ => "/out",
        desktopWritable := true, writable := fun _ => false,
        fetch := fun _ => .error ⟨none, "unreachable"⟩,
        writeFile := fun _ _ => .error ⟨none, "unreachable"⟩,
        pathTypeError := "path must be a string" }
      (.obj [("config", .obj [("type", .str "bar"),
          ("datasets", .arr [.obj [("data", .arr [.num 1])]])]),
        ("outputPath", .str "/out/x.png")])).2 = true ∧
    noWrite (downloadChart
      { homeDir := "/home/u", timestamp := "20260101_000000",
        joinPath := fun a b => a ++ "/" ++ b, dirname := fun _ => "/out",
        desktopWritable := true, writable := fun _ => false,
        fetch := fun _ => .error ⟨none, "unreachable"⟩,
        writeFile := fun _ _ => .error ⟨none, "unreachable"⟩,
        pathTypeError := "path must be a string" }
      (.obj [("config", .obj [("type", .str "bar"),
          ("datasets", .arr [.obj [("data", .arr [.num 1])]])]),
        ("outputPath", .str "/out/x.png")])).2 = true :=
  claim_C8.2.2.1
    { homeDir := "/home/u", timestamp := "20260101_000000",
      joinPath := fun a b => a ++ "/" ++ b, dirname := fun _ => "/out",
      desktopWritable := true, writable := fun _ => false,
      fetch := fun _ => .error ⟨none, "unreachable"⟩,
      writeFile := fun _ _ => .error ⟨none, "unreachable"⟩,
      pathTypeError := "path must be a string" }
    (.obj [("config", .obj [("type", .str "bar"),
        ("datasets", .arr [.obj [("data", .arr [.num 1])]])]),
      ("outputPath", .str "/out/x.png")])
    "/out/x.png" [] rfl rfl rfl rfl

/-! ## Percent-encoding round trip -/

theorem char_toNat_lt (c : Char) : c.toNat < 1114112 := by
  have h := c.valid
  have h2 : c.toNat = c.val.toNat := rfl
  unfold UInt32.isValidChar Nat.isValidChar at h
  rcases h with h | h <;> omega

theorem hexVal_hexU (b : Nat) (h : b < 16) : hexVal (hexU b) = some b := by
  interval_cases b <;> decide

theorem pctByteVal_encode (b : Nat) (h : b < 256) :
    pctByteVal (hexU (b / 16)) (hexU (b % 16)) = some b := by
  unfold pctByteVal
  rw [hexVal_hexU (b / 16) (by omega), hexVal_hexU (b % 16) (by omega)]
  show some (b / 16 * 16 + b % 16) = some b
  congr 1
  omega

theorem isContByte_of_range (b : Nat) (h1 : 0x80 ≤ b) (h2 : b < 0xC0) :
    isContByte b = true := by
  simp only [isContByte, Bool.and_eq_true, decide_eq_true_eq]
  omega

theorem readPct_encode (b : Nat) (h : b < 256) (tail : List Char) :
    readPct ('%' :: hexU (b / 16) :: hexU (b % 16) :: tail) = some (b, tail) := by
  show (if ('%' : Char) = '%' then (pctByteVal (hexU (b / 16)) (hexU (b % 16))).map
      fun b => (b, tail) else none) = some (b, tail)
  rw [if_pos rfl, pctByteVal_encode b h]
  rfl

theorem decode_pct1 (fuel : Nat) (n : Nat) (h : n < 0x80) (tail : List Char) :
    decodeAux (fuel + 1) ('%' :: hexU (n / 16) :: hexU (n % 16) :: tail) =
      Option.map (fun s => Char.ofNat n :: s) (decodeAux fuel tail) := by
  rw [decodeAux, if_pos rfl, readPct_encode n (by omega)]
  dsimp only
  rw [if_pos h]

theorem decode_pct2 (fuel : Nat) (n : Nat) (hlo : 0x80 ≤ n) (hhi : n < 0x800)
    (tail : List Char) :
    decodeAux (fuel + 1) ('%' :: hexU ((0xC0 + n / 64) / 16) ::
        hexU ((0xC0 + n / 64) % 16) ::
        '%' :: hexU ((0x80 + n % 64) / 16) :: hexU ((0x80 + n % 64) % 16) :: tail) =
      Option.map (fun s => Char.ofNat n :: s) (decodeAux fuel tail) := by
  rw [decodeAux, if_pos rfl, readPct_encode (0xC0 + n / 64) (by omega)]
  dsimp only
  rw [if_neg (by omega), if_neg (by omega), if_pos (by omega),
    readPct_encode (0x80 + n % 64) (by omega)]
  dsimp only
  rw [if_pos (isContByte_of_range _ (by omega) (by omega))]
  rw [show (0xC0 + n / 64 - 0xC0) * 64 + (0x80 + n % 64 - 0x80) = n from by omega]

theorem decode_pct3 (fuel : Nat) (n : Nat) (hlo : 0x800 ≤ n) (hhi : n < 0x10000)
    (tail : List Char) :
    decodeAux (fuel + 1) ('%' :: hexU ((0xE0 + n / 4096) / 16) ::
        hexU ((0xE0 + n / 4096) % 16) ::
        '%' :: hexU ((0x80 + n / 64 % 64) / 16) :: hexU ((0x80 + n / 64 % 64) % 16) ::
        '%' :: hexU ((0x80 + n % 64) / 16) :: hexU ((0x80 + n % 64) % 16) :: tail) =
      Option.map (fun s => Char.ofNat n :: s) (decodeAux fuel tail) := by
  rw [decodeAux, if_pos rfl, readPct_encode (0xE0 + n / 4096) (by omega)]
  dsimp only
  rw [if_neg (by omega), if_neg (by omega), if_neg (by omega), if_pos (by omega),
    readPct_encode (0x80 + n / 64 % 64) (by omega)]
  dsimp only
  rw [readPct_encode (0x80 + n % 64) (by omega)]
  dsimp only
  rw [if_pos (by
    rw [isContByte_of_range (0x80 + n / 64 % 64) (by omega) (by omega),
      isContByte_of_range (0x80 + n % 64) (by omega) (by omega)]
    rfl)]
  rw [show (0xE0 + n / 4096 - 0xE0) * 4096 + (0x80 + n / 64 % 64 - 0x80) * 64 +
      (0x80 + n % 64 - 0x80) = n from by omega]

theorem decode_pct4 (fuel : Nat) (n : Nat) (hlo : 0x10000 ≤ n) (hhi : n < 0x110000)
    (tail : List Char) :
    decodeAux (fuel + 1) ('%' :: hexU ((0xF0 + n / 262144) / 16) ::
        hexU ((0xF0 + n / 262144) % 16) ::
        '%' :: hexU ((0x80 + n / 4096 % 64) / 16) :: hexU ((0x80 + n / 4096 % 64) % 16) ::
        '%' :: hexU ((0x80 + n / 64 % 64) / 16) :: hexU ((0x80 + n / 64 % 64) % 16) ::
        '%' :: hexU ((0x80 + n % 64) / 16) :: hexU ((0x80 + n % 64) % 16) :: tail) =
      Option.map (fun s => Char.ofNat n :: s) (decodeAux fuel tail) := by
  rw [decodeAux, if_pos rfl, readPct_encode (0xF0 + n / 262144) (by omega)]
  dsimp only
  rw [if_neg (by omega), if_neg (by omega), if_neg (by omega), if_neg (by omega),
    if_pos (by omega),
    readPct_encode (0x80 + n / 4096 % 64) (by omega)]
  dsimp only
  rw [readPct_encode (0x80 + n / 64 % 64) (by omega)]
  dsimp only
  rw [readPct_encode (0x80 + n % 64) (by omega)]
  dsimp only
  rw [if_pos (by
    rw [isContByte_of_range (0x80 + n / 4096 % 64) (by omega) (by omega),
      isContByte_of_range (0x80 + n / 64 % 64) (by omega) (by omega),
      isContByte_of_range (0x80 + n % 64) (by omega) (by omega)]
    rfl)]
  rw [show (0xF0 + n / 262144 - 0xF0) * 262144 + (0x80 + n / 4096 % 64 - 0x80) * 4096 +
      (0x80 + n / 64 % 64 - 0x80) * 64 + (0x80 + n % 64 - 0x80) = n from by omega]

/-- Fuel-indexed percent-decoding inverts percent-encoding: one fuel
unit per source character is enough. -/
theorem decodeAux_encode (s : List Char) :
    ∀ fuel, s.length ≤ fuel → decodeAux fuel (encodeChars s) = some s := by
  induction s with
  | nil =>
    intro fuel _
    cases fuel <;> rfl
  | cons c rest ih =>
    intro fuel hf
    have hf1 : ∃ f, fuel = f + 1 := by
      cases fuel
      · simp at hf
      · exact ⟨_, rfl⟩
    obtain ⟨f, rfl⟩ := hf1
    have hrest : rest.length ≤ f := by
      simp only [List.length_cons] at hf
      omega
    rw [encodeChars]
    by_cases hu : isUnreservedChar c = true
    · rw [show encodeChar c = [c] from by rw [encodeChar, if_pos hu]]
      have hne : ¬ (c = '%') := by
        intro hh
        subst hh
        exact absurd hu (by decide)
      show decodeAux (f + 1) (c :: encodeChars rest) = some (c :: rest)
      rw [decodeAux, if_neg hne, ih f hrest]
      rfl
    · rw [show encodeChar c = ((utf8Bytes c.toNat).map pctEncodeByte).flatten from by
        rw [encodeChar, if_neg hu]]
      have hvc := char_toNat_lt c
      by_cases h1 : c.toNat < 0x80
      · rw [show utf8Bytes c.toNat = [c.toNat] from by rw [utf8Bytes, if_pos h1]]
        show decodeAux (f + 1) ('%' :: hexU (c.toNat / 16) :: hexU (c.toNat % 16) ::
          encodeChars rest) = some (c :: rest)
        rw [decode_pct1 f c.toNat h1, ih f hrest, Char.ofNat_toNat]
        rfl
      · by_cases h2 : c.toNat < 0x800
        · rw [show utf8Bytes c.toNat = [0xC0 + c.toNat / 64, 0x80 + c.toNat % 64] from by
            rw [utf8Bytes, if_neg h1, if_pos h2]]
          show decodeAux (f + 1) ('%' :: hexU ((0xC0 + c.toNat / 64) / 16) ::
            hexU ((0xC0 + c.toNat / 64) % 16) :: '%' :: hexU ((0x80 + c.toNat % 64) / 16) ::
            hexU ((0x80 + c.toNat % 64) % 16) :: encodeChars rest) = some (c :: rest)
          rw [decode_pct2 f c.toNat (by omega) h2, ih f hrest, Char.ofNat_toNat]
          rfl
        · by_cases h3 : c.toNat < 0x10000
          · rw [show utf8Bytes c.toNat = [0xE0 + c.toNat / 4096,
                0x80 + c.toNat / 64 % 64, 0x80 + c.toNat % 64] from by
              rw [utf8Bytes, if_neg h1, if_neg h2, if_pos h3]]
            show decodeAux (f + 1) ('%' :: hexU ((0xE0 + c.toNat / 4096) / 16) ::
              hexU ((0xE0 + c.toNat / 4096) % 16) ::
              '%' :: hexU ((0x80 + c.toNat / 64 % 64) / 16) ::
              hexU ((0x80 + c.toNat / 64 % 64) % 16) ::
              '%' :: hexU ((0x80 + c.toNat % 64) / 16) ::
              hexU ((0x80 + c.toNat % 64) % 16) :: encodeChars rest) = some (c :: rest)
            rw [decode_pct3 f c.toNat (by omega) h3, ih f hrest, Char.ofNat_toNat]
            rfl
          · rw [show utf8Bytes c.toNat = [0xF0 + c.toNat / 262144,
                0x80 + c.toNat / 4096 % 64, 0x80 + c.toNat / 64 % 64,
                0x80 + c.toNat % 64] from by
              rw [utf8Bytes, if_neg h1, if_neg h2, if_neg h3]]
            show decodeAux (f + 1) ('%' :: hexU ((0xF0 + c.toNat / 262144) / 16) ::
              hexU ((0xF0 + c.toNat / 262144) % 16) ::
              '%' :: hexU ((0x80 + c.toNat / 4096 % 64) / 16) ::
              hexU ((0x80 + c.toNat / 4096 % 64) % 16) ::
              '%' :: hexU ((0x80 + c.toNat / 64 % 64) / 16) ::
              hexU ((0x80 + c.toNat / 64 % 64) % 16) ::
              '%' :: hexU ((0x80 + c.toNat % 64) / 16) ::
              hexU ((0x80 + c.toNat % 64) % 16) :: encodeChars rest) = some (c :: rest)
            rw [decode_pct4 f c.toNat (by omega) hvc, ih f hrest, Char.ofNat_toNat]
            rfl

/-- Percent-decoding inverts percent-encoding on every character
sequence. -/
theorem decode_encode (s : List Char) : decodeChars (encodeChars s) = some s := by
  unfold decodeChars
  apply decodeAux_encode
  -- the encoded text is at least as long as the source
  induction s with
  | nil => simp [encodeChars]
  | cons c rest ih =>
    rw [encodeChars]
    simp only [List.length_append, List.length_cons]
    have : 1 ≤ (encodeChar c).length := by
      unfold encodeChar
      split
      · simp
      · have hvc := char_toNat_lt c
        unfold utf8Bytes
        split
        · simp [pctEncodeByte]
        · split
          · simp [pctEncodeByte]
          · split <;> simp [pctEncodeByte]
    omega

/-- Percent-decoding inverts percent-encoding at the `String` level. -/
theorem decodeURIComponentStr_encode (s : String) :
    decodeURIComponentStr (encodeURIComponentStr s) = some s := by
  unfold decodeURIComponentStr encodeURIComponentStr
  show (decodeChars (String.mk (encodeChars s.data)).data).map String.mk = some s
  rw [show (String.mk (encodeChars s.data)).data = encodeChars s.data from rfl,
    decode_encode s.data]
  show some (String.mk s.data) = some s
  cases s
  rfl

/-! ## JSON parser round trip: numerals -/

theorem parseDigits_stop (rest : List Char) (acc : Nat) (h : headIsDig rest = false) :
    parseDigits rest acc = (acc, rest) := by
  cases rest with
  | nil => rfl
  | cons c cs =>
    simp only [headIsDig] at h
    rw [parseDigits, if_neg (by simp [h])]

theorem isDig_digitChar (n : Nat) (h : n < 10) : isDig (digitChar n) = true := by
  interval_cases n <;> decide

theorem digVal_digitChar (n : Nat) (h : n < 10) : digVal (digitChar n) = n := by
  interval_cases n <;> decide

theorem isDig_toNat (c : Char) (h : isDig c = true) :
    48 ≤ c.toNat ∧ c.toNat ≤ 57 := by
  simp only [isDig, Bool.and_eq_true, decide_eq_true_eq] at h
  obtain ⟨h1, h2⟩ := h
  have e1 : ('0' : Char).toNat ≤ c.toNat := by
    exact Nat.le_of_lt_succ (Nat.lt_succ_of_le h1)
  have e2 : c.toNat ≤ ('9' : Char).toNat := h2
  exact ⟨e1, e2⟩

theorem natCharsAux_spec (fuel : Nat) : ∀ n, n < fuel →
    (∀ c ∈ natCharsAux fuel n, isDig c = true) ∧ natCharsAux fuel n ≠ [] ∧
    ∀ acc rest, parseDigits (natCharsAux fuel n ++ rest) acc =
      parseDigits rest (acc * 10 ^ (natCharsAux fuel n).length + n) := by
  induction fuel with
  | zero =>
    intro n h
    omega
  | succ f ih =>
    intro n h
    by_cases h10 : n < 10
    · rw [natCharsAux, if_pos h10]
      refine ⟨?_, by simp, ?_⟩
      · intro c hc
        rw [List.mem_singleton] at hc
        subst hc
        exact isDig_digitChar n h10
      · intro acc rest
        rw [List.singleton_append, parseDigits,
          if_pos (isDig_digitChar n h10), digVal_digitChar n h10]
        have he : acc * 10 ^ (List.length [digitChar n]) + n = acc * 10 + n := by
          simp [pow_one]
        rw [he]
    · rw [natCharsAux, if_neg h10]
      obtain ⟨ihd, ihne, ihp⟩ := ih (n / 10) (by omega)
      refine ⟨?_, by simp, ?_⟩
      · intro c hc
        rcases List.mem_append.mp hc with hc | hc
        · exact ihd c hc
        · rw [List.mem_singleton] at hc
          subst hc
          exact isDig_digitChar _ (by omega)
      · intro acc rest
        rw [List.append_assoc, List.singleton_append, ihp, parseDigits,
          if_pos (isDig_digitChar _ (by omega)), digVal_digitChar _ (by omega)]
        congr 1
        rw [List.length_append, List.length_singleton, pow_succ, ← Nat.mul_assoc]
        generalize acc * 10 ^ (natCharsAux f (n / 10)).length = m
        omega

theorem natChars_spec (n : Nat) :
    (∀ c ∈ natChars n, isDig c = true) ∧ natChars n ≠ [] ∧
    ∀ rest, headIsDig rest = false → parseDigits (natChars n ++ rest) 0 = (n, rest) := by
  obtain ⟨hd, hne, hp⟩ := natCharsAux_spec (n + 1) n (by omega)
  refine ⟨hd, hne, fun rest hr => ?_⟩
  rw [show natChars n = natCharsAux (n + 1) n from rfl, hp 0 rest,
    parseDigits_stop rest _ hr]
  simp

theorem parseIntChars_intChars (n : Int) (rest : List Char)
    (h : headIsDig rest = false) :
    parseIntChars (intChars n ++ rest) = some (n, rest) := by
  obtain ⟨hd, hne, hp⟩ := natChars_spec n.natAbs
  unfold intChars
  by_cases hn : n < 0
  · rw [if_pos hn]
    cases hA : natChars n.natAbs with
    | nil => exact absurd hA hne
    | cons c0 cs0 =>
      have hdig : isDig c0 = true := hd c0 (by rw [hA]; exact List.mem_cons_self _ _)
      show (if ('-' : Char) = '-' then
          (if isDig c0 = true then
            some (-(((parseDigits (c0 :: (cs0 ++ rest)) 0).1 : Nat) : Int),
              (parseDigits (c0 :: (cs0 ++ rest)) 0).2)
          else none)
        else
          (if isDig '-' = true then
            some ((((parseDigits ('-' :: (c0 :: (cs0 ++ rest))) 0).1 : Nat) : Int),
              (parseDigits ('-' :: (c0 :: (cs0 ++ rest))) 0).2)
          else none)) = some (n, rest)
      rw [if_pos rfl, if_pos hdig,
        show c0 :: (cs0 ++ rest) = natChars n.natAbs ++ rest from by
          rw [hA, List.cons_append],
        hp rest h]
      show some (-((n.natAbs : Nat) : Int), rest) = some (n, rest)
      rw [show -((n.natAbs : Nat) : Int) = n from by omega]
  · rw [if_neg hn]
    cases hA : natChars n.natAbs with
    | nil => exact absurd hA hne
    | cons c0 cs0 =>
      have hdig : isDig c0 = true := hd c0 (by rw [hA]; exact List.mem_cons_self _ _)
      have hnotminus : ¬ (c0 = '-') := by
        intro hh
        subst hh
        obtain ⟨h1, h2⟩ := isDig_toNat _ hdig
        simp at h1 h2
      show (if c0 = '-' then _ else
          (if isDig c0 = true then
            some ((((parseDigits (c0 :: (cs0 ++ rest)) 0).1 : Nat) : Int),
              (parseDigits (c0 :: (cs0 ++ rest)) 0).2)
          else none)) = some (n, rest)
      rw [if_neg hnotminus, if_pos hdig,
        show c0 :: (cs0 ++ rest) = natChars n.natAbs ++ rest from by
          rw [hA, List.cons_append],
        hp rest h]
      show some (((n.natAbs : Nat) : Int), rest) = some (n, rest)
      rw [show ((n.natAbs : Nat) : Int) = n from by omega]

/-! ## JSON parser round trip: strings -/

theorem hexVal_hexL (b : Nat) (h : b < 16) : hexVal (hexL b) = some b := by
  interval_cases b <;> decide

theorem parseUEscape_encode (h1 h2 h3 h4 : Char) (av bv cv dv : Nat)
    (tail : List Char) (ha : hexVal h1 = some av) (hb : hexVal h2 = some bv)
    (hc : hexVal h3 = some cv) (hd : hexVal h4 = some dv) :
    parseUEscape (h1 :: h2 :: h3 :: h4 :: tail) =
      some (av * 4096 + bv * 256 + cv * 16 + dv, tail) := by
  show (do
      let a ← hexVal h1
      let b ← hexVal h2
      let c2 ← hexVal h3
      let d ← hexVal h4
      some (a * 4096 + b * 256 + c2 * 16 + d, tail) :
      Option (Nat × List Char)) = _
  rw [ha, hb, hc, hd]
  rfl

theorem readEscape_named (e ec : Char) (rest1 : List Char)
    (hu : ¬ (e = 'u')) (he : unescapeChar e = some ec) :
    readEscape (e :: rest1) = some (ec, rest1) := by
  rw [readEscape, if_neg hu, he]

theorem readEscape_u (h1 h2 h3 h4 : Char) (av bv cv dv : Nat) (tail : List Char)
    (ha : hexVal h1 = some av) (hb : hexVal h2 = some bv)
    (hc : hexVal h3 = some cv) (hd : hexVal h4 = some dv) :
    readEscape ('u' :: h1 :: h2 :: h3 :: h4 :: tail) =
      some (Char.ofNat (av * 4096 + bv * 256 + cv * 16 + dv), tail) := by
  rw [readEscape, if_pos rfl,
    parseUEscape_encode h1 h2 h3 h4 av bv cv dv tail ha hb hc hd]

theorem parseStringAux_esc (fuel : Nat) (e ec : Char) (tail : List Char)
    (hu : ¬ (e = 'u')) (he : unescapeChar e = some ec) :
    parseStringAux (fuel + 1) ('\\' :: e :: tail) =
      (parseStringAux fuel tail).map fun p => (ec :: p.1, p.2) := by
  rw [parseStringAux, if_neg (by decide : ¬ ('\\' : Char) = '"'), if_pos rfl,
    readEscape_named e ec tail hu he]

theorem parseStringAux_u (fuel : Nat) (h1 h2 h3 h4 : Char) (av bv cv dv : Nat)
    (tail : List Char) (ha : hexVal h1 = some av) (hb : hexVal h2 = some bv)
    (hc : hexVal h3 = some cv) (hd : hexVal h4 = some dv) :
    parseStringAux (fuel + 1) ('\\' :: 'u' :: h1 :: h2 :: h3 :: h4 :: tail) =
      (parseStringAux fuel tail).map fun p =>
        (Char.ofNat (av * 4096 + bv * 256 + cv * 16 + dv) :: p.1, p.2) := by
  rw [parseStringAux, if_neg (by decide : ¬ ('\\' : Char) = '"'), if_pos rfl,
    readEscape_u h1 h2 h3 h4 av bv cv dv tail ha hb hc hd]

theorem parseStringAux_quote (fuel : Nat) (rest : List Char) :
    parseStringAux (fuel + 1) ('"' :: rest) = some ([], rest) := by
  rw [parseStringAux, if_pos rfl]

theorem parseStringAux_plain (fuel : Nat) (c : Char) (tail : List Char)
    (h1 : ¬ (c = '"')) (h2 : ¬ (c = '\\')) :
    parseStringAux (fuel + 1) (c :: tail) =
      (parseStringAux fuel tail).map fun p => (c :: p.1, p.2) := by
  rw [parseStringAux, if_neg h1, if_neg h2]

/-- Fuel-level round trip for JSON string bodies. -/
theorem parseStringAux_escape (s : List Char) :
    ∀ fuel rest, s.length < fuel →
      parseStringAux fuel (escapeChars s ++ '"' :: rest) = some (s, rest) := by
  induction s with
  | nil =>
    intro fuel rest hf
    cases fuel with
    | zero => omega
    | succ f =>
      rw [show escapeChars [] ++ '"' :: rest = '"' :: rest from rfl,
        parseStringAux_quote f rest]
  | cons c s2 ih =>
    intro fuel rest hf
    cases fuel with
    | zero => omega
    | succ f =>
      have hf2 : s2.length < f := by
        simp only [List.length_cons] at hf
        omega
      rw [escapeChars, List.append_assoc]
      by_cases h1 : c = '"'
      · subst h1
        rw [show escapeChar '"' = ['\\', '"'] from rfl, List.cons_append,
          List.cons_append, List.nil_append,
          parseStringAux_esc f '"' '"' _ (by decide) (by decide), ih f rest hf2]
        rfl
      by_cases h2 : c = '\\'
      · subst h2
        rw [show escapeChar '\\' = ['\\', '\\'] from rfl, List.cons_append,
          List.cons_append, List.nil_append,
          parseStringAux_esc f '\\' '\\' _ (by decide) (by decide), ih f rest hf2]
        rfl
      by_cases h3 : c = '\n'
      · subst h3
        rw [show escapeChar '\n' = ['\\', 'n'] from rfl, List.cons_append,
          List.cons_append, List.nil_append,
          parseStringAux_esc f 'n' '\n' _ (by decide) (by decide), ih f rest hf2]
        rfl
      by_cases h4 : c = '\r'
      · subst h4
        rw [show escapeChar '\r' = ['\\', 'r'] from rfl, List.cons_append,
          List.cons_append, List.nil_append,
          parseStringAux_esc f 'r' '\r' _ (by decide) (by decide), ih f rest hf2]
        rfl
      by_cases h5 : c = '\t'
      · subst h5
        rw [show escapeChar '\t' = ['\\', 't'] from rfl, List.cons_append,
          List.cons_append, List.nil_append,
          parseStringAux_esc f 't' '\t' _ (by decide) (by decide), ih f rest hf2]
        rfl
      by_cases h6 : c.toNat = 8
      · have hc : c = Char.ofNat 8 := by
          rw [← Char.ofNat_toNat c, h6]
        subst hc
        rw [show escapeChar (Char.ofNat 8) = ['\\', 'b'] from by decide,
          List.cons_append, List.cons_append, List.nil_append,
          parseStringAux_esc f 'b' (Char.ofNat 8) _ (by decide) (by decide),
          ih f rest hf2]
        rfl
      by_cases h7 : c.toNat = 12
      · have hc : c = Char.ofNat 12 := by
          rw [← Char.ofNat_toNat c, h7]
        subst hc
        rw [show escapeChar (Char.ofNat 12) = ['\\', 'f'] from by decide,
          List.cons_append, List.cons_append, List.nil_append,
          parseStringAux_esc f 'f' (Char.ofNat 12) _ (by decide) (by decide),
          ih f rest hf2]
        rfl
      by_cases h8 : c.toNat < 32
      · rw [show escapeChar c =
            ['\\', 'u', '0', '0', hexL (c.toNat / 16), hexL (c.toNat % 16)] from by
          unfold escapeChar
          rw [if_neg h1, if_neg h2, if_neg h3, if_neg h4, if_neg h5,
            if_neg h6, if_neg h7, if_pos h8]]
        rw [List.cons_append, List.cons_append, List.cons_append, List.cons_append,
          List.cons_append, List.cons_append, List.nil_append,
          parseStringAux_u f '0' '0' (hexL (c.toNat / 16)) (hexL (c.toNat % 16))
            0 0 (c.toNat / 16) (c.toNat % 16) _ (by decide) (by decide)
            (hexVal_hexL _ (by omega)) (hexVal_hexL _ (by omega)), ih f rest hf2]
        show some (Char.ofNat (0 * 4096 + 0 * 256 + c.toNat / 16 * 16 + c.toNat % 16)
          :: s2, rest) = _
        rw [show 0 * 4096 + 0 * 256 + c.toNat / 16 * 16 + c.toNat % 16 = c.toNat from
          by omega, Char.ofNat_toNat]
      · rw [show escapeChar c = [c] from by
          unfold escapeChar
          rw [if_neg h1, if_neg h2, if_neg h3, if_neg h4, if_neg h5,
            if_neg h6, if_neg h7, if_neg h8]]
        rw [List.cons_append, List.nil_append,
          parseStringAux_plain f c _ h1 h2, ih f rest hf2]
        rfl

theorem escapeChar_length (c : Char) : 1 ≤ (escapeChar c).length := by
  unfold escapeChar
  split
  · simp
  split
  · simp
  split
  · simp
  split
  · simp
  split
  · simp
  split
  · simp
  split
  · simp
  split
  · simp
  · simp

theorem escapeChars_length (s : List Char) :
    s.length ≤ (escapeChars s).length := by
  induction s with
  | nil => simp [escapeChars]
  | cons c rest ih =>
    rw [escapeChars]
    simp only [List.length_append, List.length_cons]
    have := escapeChar_length c
    omega

/-- Parsing a JSON string body inverts `JSON.stringify` escaping. -/
theorem parseStringChars_escape (s : List Char) (rest : List Char) :
    parseStringChars (escapeChars s ++ '"' :: rest) = some (s, rest) := by
  unfold parseStringChars
  apply parseStringAux_escape
  have := escapeChars_length s
  simp only [List.length_append, List.length_cons]
  omega

/-! ## JSON parser round trip: structural lemmas -/

theorem skipWs_cons (c : Char) (l : List Char) (h : isWsChar c = false) :
    skipWs (c :: l) = c :: l := by
  rw [skipWs, if_neg (by simp [h])]

theorem expectLit_append (l cs : List Char) : expectLit l (l ++ cs) = some cs := by
  induction l with
  | nil => rfl
  | cons c ls ih => rw [List.cons_append, expectLit, if_pos rfl, ih]

theorem isWsChar_eq_false (c : Char) (h1 : ¬ (c = ' ')) (h2 : ¬ (c = '\t'))
    (h3 : ¬ (c = '\n')) (h4 : ¬ (c = '\r')) : isWsChar c = false := by
  simp [isWsChar, h1, h2, h3, h4]

/-- Dispatch facts about the first character of a printed JSON numeral. -/
theorem numHead_dispatch (c : Char) (h : isDig c = true ∨ c = '-') :
    isWsChar c = false ∧ ¬ (c = '"') ∧ ¬ (c = '[') ∧ ¬ (c = '{') ∧
    ¬ (c = 't') ∧ ¬ (c = 'f') ∧ ¬ (c = 'n') ∧ ¬ (c = ']') ∧ ¬ (c = '}') := by
  rcases h with h | h
  · have hne : ∀ d : Char, isDig d = false → ¬ (c = d) := by
      intro d hd hh
      subst hh
      simp [h] at hd
    exact ⟨isWsChar_eq_false c (hne ' ' (by decide)) (hne '\t' (by decide))
        (hne '\n' (by decide)) (hne '\r' (by decide)),
      hne '"' (by decide), hne '[' (by decide), hne '{' (by decide),
      hne 't' (by decide), hne 'f' (by decide), hne 'n' (by decide),
      hne ']' (by decide), hne '}' (by decide)⟩
  · subst h
    exact ⟨by decide, by decide, by decide, by decide, by decide, by decide,
      by decide, by decide, by decide⟩

theorem natChars_head (n : Nat) :
    ∃ c0 cs0, natChars n = c0 :: cs0 ∧ isDig c0 = true := by
  obtain ⟨hd, hne, _⟩ := natChars_spec n
  cases hA : natChars n with
  | nil => exact absurd hA hne
  | cons c0 cs0 =>
    exact ⟨c0, cs0, rfl, hd c0 (by rw [hA]; exact List.mem_cons_self _ _)⟩

theorem intChars_head (n : Int) :
    ∃ c0 cs0, intChars n = c0 :: cs0 ∧ (isDig c0 = true ∨ c0 = '-') := by
  obtain ⟨c0, cs0, hA, hd⟩ := natChars_head n.natAbs
  unfold intChars
  by_cases hn : n < 0
  · exact ⟨'-', natChars n.natAbs, by rw [if_pos hn], Or.inr rfl⟩
  · exact ⟨c0, cs0, by rw [if_neg hn, hA], Or.inl hd⟩

theorem serializableV_of_jsonChars_none (v : JValue) (h : jsonChars v = none) :
    serializableV v = false := by
  cases v <;> first
    | rfl
    | cases h
    | (rename_i b; cases b <;> cases h)

theorem serializableV_of_jsonChars_some (v : JValue) (sv : List Char)
    (h : jsonChars v = some sv) : serializableV v = true := by
  cases v <;> first
    | rfl
    | cases h

theorem jsonChars_some_of_serializable (v : JValue) (h : serializableV v = true) :
    ∃ sv, jsonChars v = some sv := by
  cases v <;> first
    | exact ⟨_, rfl⟩
    | (rename_i b; cases b <;> exact ⟨_, rfl⟩)
    | cases h

theorem jsonMembers_cons_none (k : String) (v : JValue)
    (fs : List (String × JValue)) (h : jsonChars v = none) :
    jsonMembers ((k, v) :: fs) = jsonMembers fs := by
  rw [jsonMembers, h]

theorem jsonMembers_cons_some (k : String) (v : JValue)
    (fs : List (String × JValue)) (sv : List Char) (h : jsonChars v = some sv) :
    jsonMembers ((k, v) :: fs) =
      (quoteChars k.data ++ ':' :: sv) ++
        (if jsonMembers fs = [] then [] else ',' :: jsonMembers fs) := by
  rw [jsonMembers, h]

theorem stripFields_cons_none (k : String) (v : JValue)
    (fs : List (String × JValue)) (h : serializableV v = false) :
    stripFields ((k, v) :: fs) = stripFields fs := by
  rw [stripFields, h]
  simp

theorem stripFields_cons_some (k : String) (v : JValue)
    (fs : List (String × JValue)) (h : serializableV v = true) :
    stripFields ((k, v) :: fs) = (k, strip v) :: stripFields fs := by
  rw [stripFields, h]
  simp

theorem needMembers_cons_none (k : String) (v : JValue)
    (fs : List (String × JValue)) (h : serializableV v = false) :
    needMembers ((k, v) :: fs) = needMembers fs := by
  rw [needMembers, h]
  simp

theorem needMembers_cons_some (k : String) (v : JValue)
    (fs : List (String × JValue)) (h : serializableV v = true) :
    needMembers ((k, v) :: fs) = 1 + max (needFuel v) (needMembers fs) := by
  rw [needMembers, h]
  simp

theorem jsonMembers_nil_strip (fs : List (String × JValue))
    (h : jsonMembers fs = []) : stripFields fs = [] := by
  induction fs with
  | nil => rfl
  | cons p fs2 ih =>
    obtain ⟨k, v⟩ := p
    cases hv : jsonChars v with
    | none =>
      rw [stripFields_cons_none k v fs2 (serializableV_of_jsonChars_none v hv)]
      rw [jsonMembers_cons_none k v fs2 hv] at h
      exact ih h
    | some sv =>
      rw [jsonMembers_cons_some k v fs2 sv hv] at h
      rw [show quoteChars k.data ++ ':' :: sv =
        '"' :: (escapeChars k.data ++ '"' :: ':' :: sv) from by
          simp [quoteChars]] at h
      cases h

theorem needMembers_eq_zero (fs : List (String × JValue))
    (h : jsonMembers fs = []) : needMembers fs = 0 := by
  induction fs with
  | nil => rfl
  | cons p fs2 ih =>
    obtain ⟨k, v⟩ := p
    cases hv : jsonChars v with
    | none =>
      rw [needMembers_cons_none k v fs2 (serializableV_of_jsonChars_none v hv)]
      rw [jsonMembers_cons_none k v fs2 hv] at h
      exact ih h
    | some sv =>
      rw [jsonMembers_cons_some k v fs2 sv hv] at h
      rw [show quoteChars k.data ++ ':' :: sv =
        '"' :: (escapeChars k.data ++ '"' :: ':' :: sv) from by
          simp [quoteChars]] at h
      cases h

theorem needMembers_pos (fs : List (String × JValue))
    (h : jsonMembers fs ≠ []) : 1 ≤ needMembers fs := by
  induction fs with
  | nil => exact absurd rfl h
  | cons p fs2 ih =>
    obtain ⟨k, v⟩ := p
    cases hv : jsonChars v with
    | none =>
      rw [needMembers_cons_none k v fs2 (serializableV_of_jsonChars_none v hv)]
      rw [jsonMembers_cons_none k v fs2 hv] at h
      exact ih h
    | some sv =>
      rw [needMembers_cons_some k v fs2 (serializableV_of_jsonChars_some v sv hv)]
      omega

theorem jsonMembers_head (fs : List (String × JValue)) (c : Char)
    (tail : List Char) (h : jsonMembers fs = c :: tail) : c = '"' := by
  induction fs generalizing tail with
  | nil => cases h
  | cons p fs2 ih =>
    obtain ⟨k, v⟩ := p
    cases hv : jsonChars v with
    | none =>
      rw [jsonMembers_cons_none k v fs2 hv] at h
      exact ih tail h
    | some sv =>
      rw [jsonMembers_cons_some k v fs2 sv hv] at h
      rw [show quoteChars k.data ++ ':' :: sv =
        '"' :: (escapeChars k.data ++ '"' :: ':' :: sv) from by
          simp [quoteChars]] at h
      rw [List.cons_append] at h
      injection h with h1 h2
      exact h1.symm

theorem one_le_needFuel (v : JValue) : 1 ≤ needFuel v := by
  cases v <;> rw [needFuel] <;> omega

/-- The first character of the printed form of any value is not
whitespace and is neither a closing bracket nor a closing brace. -/
theorem printed_head (v : JValue) : ∃ c tail,
    (jsonChars v).getD nullChars = c :: tail ∧ isWsChar c = false ∧
    ¬ (c = ']') ∧ ¬ (c = '}') := by
  cases v with
  | undef => exact ⟨'n', ['u', 'l', 'l'], rfl, by decide, by decide, by decide⟩
  | func f => exact ⟨'n', ['u', 'l', 'l'], rfl, by decide, by decide, by decide⟩
  | null => exact ⟨'n', ['u', 'l', 'l'], rfl, by decide, by decide, by decide⟩
  | bool b =>
    cases b
    · exact ⟨'f', ['a', 'l', 's', 'e'], rfl, by decide, by decide, by decide⟩
    · exact ⟨'t', ['r', 'u', 'e'], rfl, by decide, by decide, by decide⟩
  | num n =>
    obtain ⟨c0, cs0, hA, hgood⟩ := intChars_head n
    obtain ⟨hws, _, _, _, _, _, _, hbr, hbc⟩ := numHead_dispatch c0 hgood
    exact ⟨c0, cs0, by rw [show (jsonChars (JValue.num n)).getD nullChars =
      intChars n from rfl, hA], hws, hbr, hbc⟩
  | str s =>
    exact ⟨'"', escapeChars s.data ++ ['"'], rfl, by decide, by decide, by decide⟩
  | arr xs =>
    exact ⟨'[', jsonElems xs ++ [']'], rfl, by decide, by decide, by decide⟩
  | obj fs =>
    exact ⟨'{', jsonMembers fs ++ ['}'], rfl, by decide, by decide, by decide⟩

theorem jsonElems_cons_ex (x : JValue) (xs : List JValue) :
    ∃ t, jsonElems (x :: xs) = (jsonChars x).getD nullChars ++ t := by
  cases xs with
  | nil => exact ⟨[], by rw [jsonElems]; simp⟩
  | cons y ys => exact ⟨',' :: jsonElems (y :: ys), by rw [jsonElems]⟩


/-- Joint size-indexed bound: the parser fuel needed for a printed value
is at most its printed length plus one (and correspondingly for element
and member lists). -/
theorem needBound : ∀ n : Nat,
    (∀ v : JValue, sizeOf v ≤ n →
      needFuel v ≤ ((jsonChars v).getD nullChars).length + 1) ∧
    (∀ xs : List JValue, sizeOf xs ≤ n →
      needElems xs ≤ (jsonElems xs).length + 2) ∧
    (∀ fs : List (String × JValue), sizeOf fs ≤ n →
      needMembers fs ≤ (jsonMembers fs).length + 2) := by
  intro n
  induction n using Nat.strong_induction_on with
  | _ n ih =>
    refine ⟨?_, ?_, ?_⟩
    · intro v hv
      cases v with
      | undef => rw [needFuel]; omega
      | null => rw [needFuel]; omega
      | bool b => rw [needFuel]; omega
      | num m => rw [needFuel]; omega
      | str t => rw [needFuel]; omega
      | func f => rw [needFuel]; omega
      | arr xs =>
        rw [needFuel]
        have hxs : sizeOf xs < n := by
          have := JValue.arr.sizeOf_spec xs
          omega
        have h2 := (ih (sizeOf xs) hxs).2.1 xs le_rfl
        rw [show (jsonChars (JValue.arr xs)).getD nullChars =
          '[' :: jsonElems xs ++ [']'] from rfl]
        simp only [List.length_cons, List.length_append, List.length_nil]
        omega
      | obj fs =>
        rw [needFuel]
        have hfs : sizeOf fs < n := by
          have := JValue.obj.sizeOf_spec fs
          omega
        have h2 := (ih (sizeOf fs) hfs).2.2 fs le_rfl
        rw [show (jsonChars (JValue.obj fs)).getD nullChars =
          '{' :: jsonMembers fs ++ ['}'] from rfl]
        simp only [List.length_cons, List.length_append, List.length_nil]
        omega
    · intro xs hxs
      cases xs with
      | nil => rw [needElems]; omega
      | cons x rest =>
        have hx : sizeOf x < n := by
          have := List.cons.sizeOf_spec x rest
          omega
        have hrest : sizeOf rest < n := by
          have := List.cons.sizeOf_spec x rest
          omega
        have h1 := (ih (sizeOf x) hx).1 x le_rfl
        cases rest with
        | nil =>
          rw [needElems, needElems, jsonElems]
          have hm : max (needFuel x) 0 = needFuel x := Nat.max_zero _
          rw [hm]
          omega
        | cons y ys =>
          have h2 := (ih (sizeOf (y :: ys)) hrest).2.1 (y :: ys) le_rfl
          rw [needElems, jsonElems]
          have hmax : max (needFuel x) (needElems (y :: ys)) ≤
              ((jsonChars x).getD nullChars).length +
                (jsonElems (y :: ys)).length + 2 :=
            max_le (by omega) (by omega)
          simp only [List.length_append, List.length_cons]
          omega
    · intro fs hfs
      cases fs with
      | nil => rw [needMembers]; omega
      | cons p rest =>
        obtain ⟨k, v⟩ := p
        have hv : sizeOf v < n := by
          have ha := List.cons.sizeOf_spec (k, v) rest
          have hb := Prod.mk.sizeOf_spec k v
          omega
        have hrest : sizeOf rest < n := by
          have ha := List.cons.sizeOf_spec (k, v) rest
          omega
        have h2 := (ih (sizeOf rest) hrest).2.2 rest le_rfl
        cases hc : jsonChars v with
        | none =>
          rw [needMembers_cons_none k v rest (serializableV_of_jsonChars_none v hc),
            jsonMembers_cons_none k v rest hc]
          exact h2
        | some sv =>
          have h1 := (ih (sizeOf v) hv).1 v le_rfl
          rw [hc] at h1
          simp only [Option.getD_some] at h1
          rw [needMembers_cons_some k v rest (serializableV_of_jsonChars_some v sv hc),
            jsonMembers_cons_some k v rest sv hc]
          by_cases hr : jsonMembers rest = []
          · rw [if_pos hr]
            have h0 := needMembers_eq_zero rest hr
            have hmax : max (needFuel v) (needMembers rest) ≤ sv.length + 1 := by
              rw [h0]
              exact max_le h1 (by omega)
            simp only [List.length_append, List.length_cons, List.length_nil]
            omega
          · rw [if_neg hr]
            have hmax : max (needFuel v) (needMembers rest) ≤
                sv.length + (jsonMembers rest).length + 2 :=
              max_le (by omega) (by omega)
            simp only [List.length_append, List.length_cons]
            omega

/-- Fuel bound in terms of the serialized text. -/
theorem needFuel_le_length (v : JValue) (cs : List Char)
    (h : jsonChars v = some cs) : needFuel v ≤ cs.length + 1 := by
  have h2 := (needBound (sizeOf v)).1 v le_rfl
  rw [h] at h2
  simpa using h2


/-! ## Well-formedness infrastructure -/

theorem wfList_iff (xs : List JValue) :
    wfList xs = true ↔ ∀ x ∈ xs, wfJson x = true := by
  induction xs with
  | nil => simp [wfList]
  | cons x rest ih =>
    rw [wfList, Bool.and_eq_true, ih]
    simp [List.forall_mem_cons]

theorem wfFields_iff (fs : List (String × JValue)) :
    wfFields fs = true ↔ ∀ p ∈ fs, wfJson p.2 = true := by
  induction fs with
  | nil => simp [wfFields]
  | cons p rest ih =>
    obtain ⟨k, v⟩ := p
    rw [wfFields, Bool.and_eq_true, ih]
    simp [List.forall_mem_cons]

/-- Every pure JSON value is a well-formed runtime value. -/
theorem pureWf : ∀ n : Nat,
    (∀ v : JValue, sizeOf v ≤ n → pureJson v = true → wfJson v = true) ∧
    (∀ xs : List JValue, sizeOf xs ≤ n → pureList xs = true → wfList xs = true) ∧
    (∀ fs : List (String × JValue), sizeOf fs ≤ n →
      pureFields fs = true → wfFields fs = true) := by
  intro n
  induction n using Nat.strong_induction_on with
  | _ n ih =>
    refine ⟨?_, ?_, ?_⟩
    · intro v hv hp
      cases v with
      | undef => exact Bool.noConfusion hp
      | func f => exact Bool.noConfusion hp
      | null => rfl
      | bool b => rfl
      | num m => rfl
      | str t => rfl
      | arr xs =>
        rw [pureJson] at hp
        rw [wfJson]
        have hxs : sizeOf xs < n := by
          have := JValue.arr.sizeOf_spec xs
          omega
        exact (ih (sizeOf xs) hxs).2.1 xs le_rfl hp
      | obj fs =>
        rw [pureJson, Bool.and_eq_true] at hp
        rw [wfJson, Bool.and_eq_true]
        have hfs : sizeOf fs < n := by
          have := JValue.obj.sizeOf_spec fs
          omega
        exact ⟨hp.1, (ih (sizeOf fs) hfs).2.2 fs le_rfl hp.2⟩
    · intro xs hxs hp
      cases xs with
      | nil => rfl
      | cons x rest =>
        rw [pureList, Bool.and_eq_true] at hp
        rw [wfList, Bool.and_eq_true]
        have hx : sizeOf x < n := by
          have := List.cons.sizeOf_spec x rest
          omega
        have hr : sizeOf rest < n := by
          have := List.cons.sizeOf_spec x rest
          omega
        exact ⟨(ih (sizeOf x) hx).1 x le_rfl hp.1,
          (ih (sizeOf rest) hr).2.1 rest le_rfl hp.2⟩
    · intro fs hfs hp
      cases fs with
      | nil => rfl
      | cons p rest =>
        obtain ⟨k, v⟩ := p
        rw [pureFields, Bool.and_eq_true] at hp
        rw [wfFields, Bool.and_eq_true]
        have hv : sizeOf v < n := by
          have ha := List.cons.sizeOf_spec (k, v) rest
          have hb := Prod.mk.sizeOf_spec k v
          omega
        have hr : sizeOf rest < n := by
          have := List.cons.sizeOf_spec (k, v) rest
          omega
        exact ⟨(ih (sizeOf v) hv).1 v le_rfl hp.1,
          (ih (sizeOf rest) hr).2.2 rest le_rfl hp.2⟩

theorem pureJson_wf (v : JValue) (h : pureJson v = true) : wfJson v = true :=
  (pureWf (sizeOf v)).1 v le_rfl h

theorem wfJson_lookup (fs : List (String × JValue)) (k : String)
    (h : wfFields fs = true) : wfJson (lookupField fs k) = true := by
  induction fs with
  | nil => rfl
  | cons p rest ih =>
    obtain ⟨k2, v⟩ := p
    rw [wfFields, Bool.and_eq_true] at h
    rw [lookupField]
    by_cases hk : k2 = k
    · rw [if_pos hk]
      exact h.1
    · rw [if_neg hk]
      exact ih h.2

theorem wfJson_get (v : JValue) (k : String) (h : wfJson v = true) :
    wfJson (v.get k) = true := by
  cases v with
  | obj fs =>
    rw [wfJson, Bool.and_eq_true] at h
    rw [get_obj]
    exact wfJson_lookup fs k h.2
  | undef => rfl
  | null => rfl
  | bool b => rfl
  | num m => rfl
  | str t => rfl
  | arr xs => rfl
  | func f => rfl

theorem wfJson_getIndex (v : JValue) (i : Nat) (h : wfJson v = true) :
    wfJson (v.getIndex i) = true := by
  cases v with
  | arr xs =>
    rw [wfJson] at h
    show wfJson ((xs.get? i).getD .undef) = true
    cases hx : xs.get? i with
    | none => rfl
    | some x =>
      simp only [Option.getD_some]
      exact (wfList_iff xs).mp h x (List.get?_mem hx)
  | obj fs =>
    rw [wfJson, Bool.and_eq_true] at h
    show wfJson (lookupField fs (toString i)) = true
    exact wfJson_lookup fs (toString i) h.2
  | str t =>
    show wfJson (((t.data.get? i).map fun c =>
      JValue.str (String.mk [c])).getD .undef) = true
    cases hx : t.data.get? i
    · rfl
    · rfl
  | undef => rfl
  | null => rfl
  | bool b => rfl
  | num m => rfl
  | func f => rfl

theorem snd_mem_enumFrom {α : Type} (xs : List α) :
    ∀ (m : Nat) (p : Nat × α), p ∈ List.enumFrom m xs → p.2 ∈ xs := by
  induction xs with
  | nil =>
    intro m p h
    cases h
  | cons x rest ih =>
    intro m p h
    rw [List.enumFrom] at h
    rcases List.mem_cons.mp h with h | h
    · subst h
      exact List.mem_cons_self _ _
    · exact List.mem_cons_of_mem _ (ih (m + 1) p h)

theorem wfFields_spreadFields (v : JValue) (h : wfJson v = true) :
    ∀ p ∈ spreadFields v, wfJson p.2 = true := by
  cases v with
  | obj fs =>
    rw [wfJson, Bool.and_eq_true] at h
    intro p hp
    exact (wfFields_iff fs).mp h.2 p hp
  | arr xs =>
    rw [wfJson] at h
    intro p hp
    rw [show spreadFields (JValue.arr xs) =
      xs.enum.map (fun q => (toString q.1, q.2)) from rfl] at hp
    obtain ⟨q, hq, hpq⟩ := List.mem_map.mp hp
    rw [← hpq]
    exact (wfList_iff xs).mp h q.2 (snd_mem_enumFrom xs 0 q hq)
  | str t =>
    intro p hp
    rw [show spreadFields (JValue.str t) = t.data.enum.map
      (fun q => (toString q.1, JValue.str (String.mk [q.2]))) from rfl] at hp
    obtain ⟨q, hq, hpq⟩ := List.mem_map.mp hp
    rw [← hpq]
    rfl
  | undef => intro p hp; cases hp
  | null => intro p hp; cases hp
  | bool b => intro p hp; cases hp
  | num m => intro p hp; cases hp
  | func f => intro p hp; cases hp

theorem any_stripFields_false (fs : List (String × JValue)) (k : String)
    (h : (fs.any fun p => p.1 == k) = false) :
    ((stripFields fs).any fun p => p.1 == k) = false := by
  induction fs with
  | nil => rfl
  | cons p rest ih =>
    obtain ⟨k2, v⟩ := p
    rw [List.any_cons] at h
    simp only [Bool.or_eq_false_iff] at h
    by_cases hs : serializableV v = true
    · rw [stripFields_cons_some k2 v rest hs, List.any_cons]
      simp only [Bool.or_eq_false_iff]
      exact ⟨h.1, ih h.2⟩
    · rw [stripFields_cons_none k2 v rest (Bool.eq_false_iff.mpr hs)]
      exact ih h.2

/-- Dropping unserializable members preserves key uniqueness. -/
theorem nodupKeys_stripFields (fs : List (String × JValue))
    (h : nodupKeys fs = true) : nodupKeys (stripFields fs) = true := by
  induction fs with
  | nil => rfl
  | cons p rest ih =>
    obtain ⟨k, v⟩ := p
    rw [nodupKeys, Bool.and_eq_true] at h
    obtain ⟨h1, h2⟩ := h
    by_cases hs : serializableV v = true
    · rw [stripFields_cons_some k v rest hs, nodupKeys, Bool.and_eq_true]
      refine ⟨?_, ih h2⟩
      have h1f : (rest.any fun p => p.1 == k) = false := by
        cases hh : rest.any fun p => p.1 == k
        · rfl
        · rw [hh] at h1
          cases h1
      rw [any_stripFields_false rest k h1f]
      rfl
    · rw [stripFields_cons_none k v rest (Bool.eq_false_iff.mpr hs)]
      exact ih h2


theorem parseVal_null (f : Nat) (rest : List Char) :
    parseVal (f + 1) (nullChars ++ rest) = some (.null, rest) := by
  rw [show nullChars ++ rest = 'n' :: ('u' :: 'l' :: 'l' :: rest) from rfl,
    parseVal, skipWs_cons _ _ (by decide)]
  dsimp only
  rw [if_neg (by decide), if_neg (by decide), if_neg (by decide),
    if_neg (by decide), if_neg (by decide), if_pos rfl,
    show 'u' :: 'l' :: 'l' :: rest = ['u', 'l', 'l'] ++ rest from rfl,
    expectLit_append]

theorem parseVal_true (f : Nat) (rest : List Char) :
    parseVal (f + 1) (['t', 'r', 'u', 'e'] ++ rest) = some (.bool true, rest) := by
  rw [show ['t', 'r', 'u', 'e'] ++ rest = 't' :: ('r' :: 'u' :: 'e' :: rest) from rfl,
    parseVal, skipWs_cons _ _ (by decide)]
  dsimp only
  rw [if_neg (by decide), if_neg (by decide), if_neg (by decide), if_pos rfl,
    show 'r' :: 'u' :: 'e' :: rest = ['r', 'u', 'e'] ++ rest from rfl,
    expectLit_append]

theorem parseVal_false (f : Nat) (rest : List Char) :
    parseVal (f + 1) (['f', 'a', 'l', 's', 'e'] ++ rest) = some (.bool false, rest) := by
  rw [show ['f', 'a', 'l', 's', 'e'] ++ rest =
      'f' :: ('a' :: 'l' :: 's' :: 'e' :: rest) from rfl,
    parseVal, skipWs_cons _ _ (by decide)]
  dsimp only
  rw [if_neg (by decide), if_neg (by decide), if_neg (by decide),
    if_neg (by decide), if_pos rfl,
    show 'a' :: 'l' :: 's' :: 'e' :: rest = ['a', 'l', 's', 'e'] ++ rest from rfl,
    expectLit_append]

/-- Master round trip: with enough fuel, the recursive-descent parser
inverts the serializer on any well-formed value, returning the stripped
value and the untouched trailing input (which must not begin with a
digit, so that numerals stop at the boundary). -/
theorem parse_print : ∀ fuel : Nat,
    (∀ (v : JValue) (rest : List Char), wfJson v = true → needFuel v ≤ fuel →
      headIsDig rest = false →
      parseVal fuel ((jsonChars v).getD nullChars ++ rest) = some (strip v, rest)) ∧
    (∀ (xs : List JValue) (rest : List Char), wfList xs = true → xs ≠ [] →
      needElems xs ≤ fuel →
      parseElems fuel (jsonElems xs ++ ']' :: rest) = some (stripList xs, rest)) ∧
    (∀ (fs : List (String × JValue)) (rest : List Char), wfFields fs = true →
      jsonMembers fs ≠ [] → needMembers fs ≤ fuel →
      parseMembers fuel (jsonMembers fs ++ '}' :: rest) =
        some (stripFields fs, rest)) := by
  intro fuel
  induction fuel with
  | zero =>
    refine ⟨?_, ?_, ?_⟩
    · intro v rest _ hfl _
      exact absurd hfl (by have := one_le_needFuel v; omega)
    · intro xs rest _ hne hfl
      cases xs with
      | nil => exact absurd rfl hne
      | cons x rest2 =>
        rw [needElems] at hfl
        exact absurd hfl (by omega)
    · intro fs rest _ hne hfl
      exact absurd hfl (by have := needMembers_pos fs hne; omega)
  | succ f ih =>
    obtain ⟨ih1, ih2, ih3⟩ := ih
    refine ⟨?_, ?_, ?_⟩
    · intro v rest hwf hfl hrest
      cases v with
      | undef =>
        rw [show (jsonChars JValue.undef).getD nullChars ++ rest =
          nullChars ++ rest from rfl, parseVal_null f rest]
        rfl
      | func g =>
        rw [show (jsonChars (JValue.func g)).getD nullChars ++ rest =
          nullChars ++ rest from rfl, parseVal_null f rest]
        rfl
      | null =>
        rw [show (jsonChars JValue.null).getD nullChars ++ rest =
          nullChars ++ rest from rfl, parseVal_null f rest]
        rfl
      | bool b =>
        cases b
        · rw [show (jsonChars (JValue.bool false)).getD nullChars ++ rest =
            ['f', 'a', 'l', 's', 'e'] ++ rest from rfl, parseVal_false f rest]
          rfl
        · rw [show (jsonChars (JValue.bool true)).getD nullChars ++ rest =
            ['t', 'r', 'u', 'e'] ++ rest from rfl, parseVal_true f rest]
          rfl
      | num m =>
        obtain ⟨c0, cs0, hA, hgood⟩ := intChars_head m
        obtain ⟨hws, hq, hbk, hbc, ht, hff, hn, _, _⟩ := numHead_dispatch c0 hgood
        have e : (jsonChars (JValue.num m)).getD nullChars ++ rest =
            c0 :: (cs0 ++ rest) := by
          show intChars m ++ rest = _
          rw [hA, List.cons_append]
        rw [e, parseVal, skipWs_cons _ _ hws]
        dsimp only
        rw [if_neg hq, if_neg hbk, if_neg hbc, if_neg ht, if_neg hff, if_neg hn,
          show c0 :: (cs0 ++ rest) = intChars m ++ rest from by
            rw [hA, List.cons_append],
          parseIntChars_intChars m rest hrest]
        rfl
      | str t =>
        have e : (jsonChars (JValue.str t)).getD nullChars ++ rest =
            '"' :: (escapeChars t.data ++ '"' :: rest) := by
          show quoteChars t.data ++ rest = _
          rw [quoteChars]
          simp [List.append_assoc]
        rw [e, parseVal, skipWs_cons _ _ (by decide)]
        dsimp only
        rw [if_pos rfl, parseStringChars_escape t.data rest]
        show some (JValue.str (String.mk t.data), rest) = some (strip (JValue.str t), rest)
        cases t
        rfl
      | arr xs =>
        have e : (jsonChars (JValue.arr xs)).getD nullChars ++ rest =
            '[' :: (jsonElems xs ++ ']' :: rest) := by
          show ('[' :: jsonElems xs ++ [']']) ++ rest = _
          simp [List.append_assoc]
        rw [e, parseVal, skipWs_cons _ _ (by decide)]
        dsimp only
        rw [if_neg (by decide), if_pos rfl]
        cases xs with
        | nil =>
          rw [show jsonElems [] ++ ']' :: rest = ']' :: rest from rfl,
            skipWs_cons _ _ (by decide)]
          dsimp only
          rw [if_pos rfl]
          rfl
        | cons x xs2 =>
          obtain ⟨t2, ht2⟩ := jsonElems_cons_ex x xs2
          obtain ⟨c0, t0, hpr, hws, hbr, _⟩ := printed_head x
          have e2 : jsonElems (x :: xs2) ++ ']' :: rest =
              c0 :: (t0 ++ (t2 ++ ']' :: rest)) := by
            rw [ht2, hpr]
            simp [List.append_assoc]
          rw [e2, skipWs_cons _ _ hws]
          dsimp only
          rw [if_neg hbr,
            show c0 :: (t0 ++ (t2 ++ ']' :: rest)) =
              jsonElems (x :: xs2) ++ ']' :: rest from e2.symm]
          rw [wfJson] at hwf
          rw [needFuel] at hfl
          rw [ih2 (x :: xs2) rest hwf (by simp) (by omega)]
          rfl
      | obj fs =>
        rw [wfJson, Bool.and_eq_true] at hwf
        have e : (jsonChars (JValue.obj fs)).getD nullChars ++ rest =
            '{' :: (jsonMembers fs ++ '}' :: rest) := by
          show ('{' :: jsonMembers fs ++ ['}']) ++ rest = _
          simp [List.append_assoc]
        rw [e, parseVal, skipWs_cons _ _ (by decide)]
        dsimp only
        rw [if_neg (by decide), if_neg (by decide), if_pos rfl]
        cases hm : jsonMembers fs with
        | nil =>
          rw [show ([] : List Char) ++ '}' :: rest = '}' :: rest from rfl,
            skipWs_cons _ _ (by decide)]
          dsimp only
          rw [if_pos rfl]
          show some (JValue.obj [], rest) = some (strip (JValue.obj fs), rest)
          rw [show strip (JValue.obj fs) = JValue.obj (stripFields fs) from by rw [strip],
            jsonMembers_nil_strip fs hm]
        | cons c2 rest2 =>
          have hq := jsonMembers_head fs c2 rest2 hm
          subst hq
          rw [List.cons_append, skipWs_cons _ _ (by decide)]
          dsimp only
          rw [if_neg (by decide),
            show '"' :: (rest2 ++ '}' :: rest) = jsonMembers fs ++ '}' :: rest from by
              rw [hm, List.cons_append]]
          rw [needFuel] at hfl
          rw [ih3 fs rest hwf.2 (by rw [hm]; simp) (by omega)]
          show some (JValue.obj (mkObj (stripFields fs)), rest) =
            some (strip (JValue.obj fs), rest)
          rw [mkObj_eq_self (stripFields fs) (nodupKeys_stripFields fs hwf.1),
            show strip (JValue.obj fs) = JValue.obj (stripFields fs) from by rw [strip]]
    · intro xs rest hwl hne hfl
      cases xs with
      | nil => exact absurd rfl hne
      | cons x xs2 =>
        rw [wfList, Bool.and_eq_true] at hwl
        cases xs2 with
        | nil =>
          rw [needElems, needElems, Nat.max_zero] at hfl
          rw [parseElems,
            show jsonElems [x] ++ ']' :: rest =
              (jsonChars x).getD nullChars ++ ']' :: rest from by rw [jsonElems],
            ih1 x (']' :: rest) hwl.1 (by omega) rfl]
          dsimp only
          rw [skipWs_cons _ _ (by decide)]
          dsimp only
          rw [if_neg (by decide), if_pos rfl]
          rfl
        | cons y ys =>
          rw [needElems] at hfl
          have e : jsonElems (x :: y :: ys) ++ ']' :: rest =
              (jsonChars x).getD nullChars ++
                ',' :: (jsonElems (y :: ys) ++ ']' :: rest) := by
            rw [jsonElems]
            simp [List.append_assoc]
          rw [parseElems, e,
            ih1 x (',' :: (jsonElems (y :: ys) ++ ']' :: rest)) hwl.1
              (by have := Nat.le_max_left (needFuel x) (needElems (y :: ys)); omega) rfl]
          dsimp only
          rw [skipWs_cons _ _ (by decide)]
          dsimp only
          rw [if_pos rfl,
            ih2 (y :: ys) rest hwl.2 (by simp)
              (by have := Nat.le_max_right (needFuel x) (needElems (y :: ys)); omega)]
          rfl
    · intro fs
      induction fs with
      | nil =>
        intro rest _ hne _
        exact absurd rfl hne
      | cons p fs2 ihf =>
        obtain ⟨k, v⟩ := p
        intro rest hwff hne hfl
        rw [wfFields, Bool.and_eq_true] at hwff
        cases hv : jsonChars v with
        | none =>
          have hs := serializableV_of_jsonChars_none v hv
          rw [jsonMembers_cons_none k v fs2 hv] at hne ⊢
          rw [needMembers_cons_none k v fs2 hs] at hfl
          rw [stripFields_cons_none k v fs2 hs]
          exact ihf rest hwff.2 hne hfl
        | some sv =>
          have hs := serializableV_of_jsonChars_some v sv hv
          rw [needMembers_cons_some k v fs2 hs] at hfl
          rw [stripFields_cons_some k v fs2 hs]
          by_cases hr : jsonMembers fs2 = []
          · have e : jsonMembers ((k, v) :: fs2) ++ '}' :: rest =
                '"' :: (escapeChars k.data ++ '"' :: (':' :: (sv ++ '}' :: rest))) := by
              rw [jsonMembers_cons_some k v fs2 sv hv, if_pos hr, quoteChars]
              simp [List.append_assoc]
            rw [parseMembers, e, skipWs_cons _ _ (by decide)]
            dsimp only
            rw [if_pos rfl, parseStringChars_escape k.data (':' :: (sv ++ '}' :: rest))]
            dsimp only
            rw [skipWs_cons _ _ (by decide)]
            dsimp only
            rw [if_pos rfl,
              show sv ++ '}' :: rest =
                (jsonChars v).getD nullChars ++ '}' :: rest from by rw [hv]; rfl,
              ih1 v ('}' :: rest) hwff.1
                (by have := Nat.le_max_left (needFuel v) (needMembers fs2); omega) rfl]
            dsimp only
            rw [skipWs_cons _ _ (by decide)]
            dsimp only
            rw [if_neg (by decide), if_pos rfl, jsonMembers_nil_strip fs2 hr]
          · have e : jsonMembers ((k, v) :: fs2) ++ '}' :: rest =
                '"' :: (escapeChars k.data ++ '"' ::
                  (':' :: (sv ++ ',' :: (jsonMembers fs2 ++ '}' :: rest)))) := by
              rw [jsonMembers_cons_some k v fs2 sv hv, if_neg hr, quoteChars]
              simp [List.append_assoc]
            rw [parseMembers, e, skipWs_cons _ _ (by decide)]
            dsimp only
            rw [if_pos rfl, parseStringChars_escape k.data
              (':' :: (sv ++ ',' :: (jsonMembers fs2 ++ '}' :: rest)))]
            dsimp only
            rw [skipWs_cons _ _ (by decide)]
            dsimp only
            rw [if_pos rfl,
              show sv ++ ',' :: (jsonMembers fs2 ++ '}' :: rest) =
                (jsonChars v).getD nullChars ++
                  ',' :: (jsonMembers fs2 ++ '}' :: rest) from by rw [hv]; rfl,
              ih1 v (',' :: (jsonMembers fs2 ++ '}' :: rest)) hwff.1
                (by have := Nat.le_max_left (needFuel v) (needMembers fs2); omega) rfl]
            dsimp only
            rw [skipWs_cons _ _ (by decide)]
            dsimp only
            rw [if_pos rfl,
              ih3 fs2 rest hwff.2 hr
                (by have := Nat.le_max_right (needFuel v) (needMembers fs2); omega)]


/-- Round trip at the level of `JSON.parse` and `JSON.stringify`. -/
theorem jsonParse_stringify (v : JValue) (txt : String) (hwf : wfJson v = true)
    (h : jsonStringify v = some txt) : jsonParse txt = some (strip v) := by
  unfold jsonStringify at h
  cases hc : jsonChars v with
  | none =>
    rw [hc] at h
    cases h
  | some cs =>
    rw [hc, Option.map_some'] at h
    injection h with h
    subst h
    unfold jsonParse
    rw [show (String.mk cs).data = cs from rfl]
    have hmain := (parse_print (cs.length + 1)).1 v [] hwf (needFuel_le_length v cs hc) rfl
    rw [hc, show ((some cs).getD nullChars ++ [] : List Char) = cs from by simp] at hmain
    rw [hmain]
    rfl

theorem nodupKeys_two (k1 k2 : String) (a b : JValue) (h : ¬ (k2 = k1)) :
    nodupKeys [(k1, a), (k2, b)] = true := by
  simp [nodupKeys, h]

theorem nodupKeys_three (k1 k2 k3 : String) (a b c : JValue)
    (h21 : ¬ (k2 = k1)) (h31 : ¬ (k3 = k1)) (h32 : ¬ (k3 = k2)) :
    nodupKeys [(k1, a), (k2, b), (k3, c)] = true := by
  simp [nodupKeys, h21, h31, h32]

/-- The canonical dataset object is a well-formed runtime value. -/
theorem wfJson_builtDataset (d : JValue) (h : wfJson d = true) :
    wfJson (builtDataset d) = true := by
  unfold builtDataset
  rw [wfJson, Bool.and_eq_true]
  refine ⟨nodupKeys_mkObj _, (wfFields_iff _).mpr ?_⟩
  intro p hp
  have hp2 := mem_mkObj _ p hp
  rcases List.mem_append.mp hp2 with hp3 | hp3
  · simp only [List.mem_cons, List.not_mem_nil, or_false] at hp3
    rcases hp3 with rfl | rfl | rfl | rfl
    · show wfJson (if truthyV (d.get "label") then d.get "label" else .str "") = true
      by_cases htr : truthyV (d.get "label") = true
      · rw [if_pos htr]
        exact wfJson_get d "label" h
      · rw [if_neg htr]
        rfl
    · exact wfJson_get d "data" h
    · exact wfJson_get d "backgroundColor" h
    · exact wfJson_get d "borderColor" h
  · refine wfFields_spreadFields _ ?_ p hp3
    by_cases ha : truthyV (d.get "additionalConfig") = true
    · rw [if_pos ha]
      exact wfJson_get d "additionalConfig" h
    · rw [if_neg ha]
      rfl

/-- The merged options object only holds well-formed values. -/
theorem wfFields_buildOptions (options title : JValue)
    (ho : wfJson options = true) (ht : wfJson title = true) :
    ∀ p ∈ buildOptions options title, wfJson p.2 = true := by
  intro p hp
  unfold buildOptions at hp
  have hp2 := mem_mkObj _ p hp
  rcases List.mem_append.mp hp2 with hp3 | hp3
  · exact wfFields_spreadFields options ho p hp3
  · by_cases htr : truthyV title = true
    · rw [if_pos htr] at hp3
      simp only [List.mem_singleton] at hp3
      subst hp3
      show wfJson (JValue.obj [("display", .bool true), ("text", title)]) = true
      rw [wfJson, Bool.and_eq_true]
      refine ⟨nodupKeys_two "display" "text" _ _ (by decide), ?_⟩
      rw [wfFields, Bool.and_eq_true]
      refine ⟨rfl, ?_⟩
      rw [wfFields, Bool.and_eq_true]
      exact ⟨ht, rfl⟩
    · rw [if_neg htr] at hp3
      cases hp3

theorem wfJson_gaugePlugins : wfJson gaugePlugins = true := rfl

/-- The canonical configuration is a well-formed runtime value whenever
the arguments object is. -/
theorem wfJson_configOf (args : JValue) (s : String) (ds : List JValue)
    (hwa : wfJson args = true) (hds : args.get "datasets" = .arr ds) :
    wfJson (configOf args s ds) = true := by
  have hwds : wfList ds = true := by
    have h2 := wfJson_get args "datasets" hwa
    rw [hds, wfJson] at h2
    exact h2
  have hwo : wfJson (optionsOf args) = true := by
    unfold optionsOf
    by_cases hu : isUndef (args.get "options") = true
    · rw [if_pos hu]
      rfl
    · rw [if_neg hu]
      exact wfJson_get args "options" hwa
  have hwt : wfJson (args.get "title") = true := wfJson_get args "title" hwa
  unfold configOf
  rw [wfJson, Bool.and_eq_true]
  refine ⟨nodupKeys_three "type" "data" "options" _ _ _
    (by decide) (by decide) (by decide), ?_⟩
  rw [wfFields, Bool.and_eq_true]
  refine ⟨rfl, ?_⟩
  rw [wfFields, Bool.and_eq_true]
  constructor
  · rw [wfJson, Bool.and_eq_true]
    refine ⟨nodupKeys_two "labels" "datasets" _ _ (by decide), ?_⟩
    rw [wfFields, Bool.and_eq_true]
    constructor
    · by_cases htr : truthyV (args.get "labels") = true
      · rw [if_pos htr]
        exact wfJson_get args "labels" hwa
      · rw [if_neg htr]
        rfl
    · rw [wfFields, Bool.and_eq_true]
      refine ⟨?_, rfl⟩
      rw [wfJson]
      refine (wfList_iff _).mpr ?_
      intro x hx
      obtain ⟨d, hd, hx2⟩ := List.mem_map.mp hx
      rw [← hx2]
      exact wfJson_builtDataset d ((wfList_iff ds).mp hwds d hd)
  · rw [wfFields, Bool.and_eq_true]
    refine ⟨?_, rfl⟩
    rw [wfJson, Bool.and_eq_true]
    by_cases hg : isGaugeType s = true
    · rw [if_pos hg]
      refine ⟨nodupKeys_mkObj _, (wfFields_iff _).mpr ?_⟩
      intro p hp
      have hp2 := mem_mkObj _ p hp
      rcases List.mem_append.mp hp2 with hp3 | hp3
      · exact wfFields_buildOptions _ _ hwo hwt p hp3
      · simp only [List.mem_singleton] at hp3
        subst hp3
        exact wfJson_gaugePlugins
    · rw [if_neg hg]
      refine ⟨?_, (wfFields_iff _).mpr (wfFields_buildOptions _ _ hwo hwt)⟩
      unfold buildOptions
      exact nodupKeys_mkObj _


/-- C3 (corrected): for every pure-JSON argument object on which
normalization succeeds, the generated URL is exactly the fixed base
endpoint followed by `?c=` followed by the percent-encoding of the
compact JSON serialization of the canonical configuration, and
percent-decoding recovers that serialization exactly; JSON-parsing it
reproduces the configuration up to `strip`, the dropping by
`JSON.stringify` of object members whose value is `undefined` or a
function. Exact reproduction fails in general: the canonical dataset
always carries `backgroundColor`/`borderColor` members, `undefined`
when the caller supplies no colors, and the gauge configurations hold
a formatter function (see the counterexample). -/
theorem claim_C3 (args cfg : JValue) (hp : pureJson args = true)
    (h : generateChartConfig args = .ok cfg) :
    ∃ txt : String, jsonStringify cfg = some txt ∧
      generateChartUrl cfg = QUICKCHART_BASE_URL ++ "?c=" ++ encodeURIComponentStr txt ∧
      decodeURIComponentStr (encodeURIComponentStr txt) = some txt ∧
      jsonParse txt = some (strip cfg) := by
  obtain ⟨s2, ds, _, _, _, hds, _, _, hcfg⟩ := generateChartConfig_inv args cfg h
  have hwa := pureJson_wf args hp
  have hwcfg : wfJson cfg = true := by
    rw [hcfg]
    exact wfJson_configOf args s2 ds hwa hds
  have hex : ∃ cs, jsonChars cfg = some cs := by
    rw [hcfg]
    exact ⟨_, rfl⟩
  obtain ⟨cs, hcs⟩ := hex
  refine ⟨String.mk cs, ?_, ?_, ?_, ?_⟩
  · unfold jsonStringify
    rw [hcs, Option.map_some']
  · unfold generateChartUrl jsonStringify
    rw [hcs, Option.map_some']
    rfl
  · exact decodeURIComponentStr_encode (String.mk cs)
  · exact jsonParse_stringify cfg (String.mk cs) hwcfg
      (by unfold jsonStringify; rw [hcs, Option.map_some'])

/-- Closed witness for the C3 theorem at the bar-chart input `c3args`. -/
theorem claim_C3_witness :
    pureJson c3args = true ∧ generateChartConfig c3args = .ok c3cfg ∧
    (∃ txt : String, jsonStringify c3cfg = some txt ∧
      generateChartUrl c3cfg = QUICKCHART_BASE_URL ++ "?c=" ++ encodeURIComponentStr txt ∧
      decodeURIComponentStr (encodeURIComponentStr txt) = some txt ∧
      jsonParse txt = some (strip c3cfg)) :=
  ⟨rfl, rfl, claim_C3 c3args c3cfg rfl rfl⟩

/-- C3 counterexample: the URL does not reproduce the configuration
exactly. Already for the plain colorless bar-chart input `c3args` the
canonical dataset carries `backgroundColor` and `borderColor` members
with value `undefined`, which `JSON.stringify` drops (the dataset
shrinks from four members to two under the round trip), and for the
radialGauge input `c3gaugeArgs` the configuration holds the datalabel
formatter function, also dropped; in both cases the parsed round trip
`strip` of the configuration differs from the configuration itself. -/
theorem claim_C3_counterexample :
    pureJson c3args = true ∧
    generateChartConfig c3args = .ok c3cfg ∧
    ¬ (strip c3cfg = c3cfg) ∧
    pureJson c3gaugeArgs = true ∧
    generateChartConfig c3gaugeArgs = .ok c3gaugeCfg ∧
    ¬ (strip c3gaugeCfg = c3gaugeCfg) := by
  refine ⟨rfl, rfl, ?_, rfl, rfl, ?_⟩
  · intro h
    have h2 := congrArg (fun v =>
      (spreadFields (((v.get "data").get "datasets").getIndex 0)).length) h
    exact absurd (show 2 = 4 from h2) (by decide)
  · intro h
    have h2 := congrArg (fun v =>
      isUndef ((((v.get "options").get "plugins").get "datalabels").get "formatter")) h
    exact Bool.noConfusion (show true = false from h2)


end QuickChart
